import Mathlib

/-!
Shallow embedding of `libredex/ReachableClasses.cpp` (the reachability root
seeder of the redex bytecode optimizer), together with proofs settling the
frozen claims about it.

Modelling conventions:
* Machine state (the per-element `ReferencedState` flag bundles) is an explicit
  function `ElemId → RState`; every C++ `rstate` mutation becomes a point
  update of that function.
* The global class table (`g_redex`) is `Program.classes`; `DexType::get_type`
  succeeds exactly on `Program.knownTypes`; the `Scope` passed to the seeders
  is the non-external part of the table (spec glossary: "Scope: the ordered
  collection of all non-external classes loaded for optimization").
* The unbounded recursions of the source (`blacklist_field`/`blacklist_method`
  super-walk, `in_reflected_pkg`) are embedded with an explicit fuel
  parameter; `superChain` below characterizes the sequence of classes the
  source recursion visits, so termination of the source code is the statement
  that the chain reaches a stopping point.
* `always_assert` failures and `std::map::at` throws are embedded as `none`
  results of `Option`-valued functions.
-/

namespace Redex

/-- Keep reasons recorded by `rstate.set_root` (keep_reason namespace). -/
inductive KeepReason
  | REFLECTION
  | MANIFEST
  | SERIALIZABLE
deriving DecidableEq, Repr

/-- Identity of a program element: a class, a field (declaring class and field
name), or a method (declaring class, name and parameter-type list). -/
inductive ElemId
  | cls (cn : String)
  | fld (cn : String) (fn : String)
  | mth (cn : String) (mn : String) (args : List String)
deriving DecidableEq, Repr

/-- The per-element `ReferencedState` flag bundle. `roots` is the log of
`set_root(reason, originator?)` calls, newest first. -/
structure RState where
  byType : Bool := false
  byString : Bool := false
  byXml : Bool := false
  isSerde : Bool := false
  roots : List (KeepReason × Option ElemId) := []
  keepCount : Nat := 0
  allowObfuscation : Bool := true
deriving DecidableEq, Repr

/-- Global flag state: one `RState` per element identity. -/
def RCState := ElemId → RState

/-- Point update of the flag state. -/
def upd (e : ElemId) (f : RState → RState) (st : RCState) : RCState :=
  fun x => if x = e then f (st x) else st x

/-- Model of `rstate.ref_by_type()`. -/
def setByType (e : ElemId) : RCState → RCState :=
  upd e fun r => { r with byType := true }

/-- Model of `rstate.ref_by_string()`. -/
def setByString (e : ElemId) : RCState → RCState :=
  upd e fun r => { r with byString := true }

/-- Model of `rstate.set_referenced_by_resource_xml()`. -/
def setByXml (e : ElemId) : RCState → RCState :=
  upd e fun r => { r with byXml := true }

/-- Model of `rstate.unset_referenced_by_resource_xml()`. -/
def unsetByXml (e : ElemId) : RCState → RCState :=
  upd e fun r => { r with byXml := false }

/-- Model of `rstate.set_is_serde()`. -/
def setIsSerde (e : ElemId) : RCState → RCState :=
  upd e fun r => { r with isSerde := true }

/-- Model of `rstate.set_root(reason, originator)`. -/
def setRoot (e : ElemId) (reason : KeepReason) (origin : Option ElemId) :
    RCState → RCState :=
  upd e fun r => { r with roots := (reason, origin) :: r.roots }

/-- Model of `rstate.increment_keep_count()`. -/
def incKeepCount (e : ElemId) : RCState → RCState :=
  upd e fun r => { r with keepCount := r.keepCount + 1 }

/-- Model of `rstate.unset_allowobfuscation()`. -/
def unsetAllowObfuscation (e : ElemId) : RCState → RCState :=
  upd e fun r => { r with allowObfuscation := false }

/-- The all-default state in which every flag of every element is unset. -/
def initState : RCState := fun _ => {}

/-- A `DexField` as the seeder observes it: name, visibility, annotations. -/
structure DexFieldDef where
  fname : String
  fpublic : Bool := true
  fannos : List String := []
deriving DecidableEq, Repr

/-- One IR instruction, restricted to what `analyze_reflection` inspects:
whether it is an invoke, the callee reference, and the source registers. -/
structure IRInstruction where
  isInvoke : Bool := true
  calleeClass : String
  calleeName : String
  srcs : List Nat := []
deriving DecidableEq, Repr

/-- Kinds of abstract objects the reflection analysis can report. -/
inductive AbsObjKind
  | CLASS
  | STRING
  | OBJECT
deriving DecidableEq, Repr

/-- An abstract object returned by `ReflectionAnalysis::get_abstract_object`:
its kind plus the (possibly absent) type / string payloads. -/
structure AbstractObject where
  objKind : AbsObjKind
  dexType : Option String := none
  dexString : Option String := none
deriving DecidableEq, Repr

/-- A method body together with the query surface of the per-method
`ReflectionAnalysis` (an external collaborator: only its answers are
modelled). `absObjects` maps (instruction index, register) to the abstract
object reported there; `methodParams` maps an instruction index to the
parameter-type list `get_method_params` infers for it. -/
structure MethodCode where
  insns : List IRInstruction := []
  absObjects : List ((Nat × Nat) × AbstractObject) := []
  methodParams : List (Nat × List String) := []
deriving DecidableEq, Repr

/-- A `DexMethod`: name, parameter types, visibility, ACC_NATIVE flag,
annotations, and an optional body with its reflection-analysis answers. -/
structure DexMethodDef where
  mname : String
  margs : List String := []
  mpublic : Bool := true
  mnative : Bool := false
  mannos : List String := []
  code : Option MethodCode := none
deriving DecidableEq, Repr

/-- A `DexClass`: name, superclass, implemented interfaces, external flag,
the four declared member lists, and declared annotations. -/
structure DexClassDef where
  cname : String
  superclass : Option String := none
  interfaces : List String := []
  isExternal : Bool := false
  sfields : List DexFieldDef := []
  ifields : List DexFieldDef := []
  dmethods : List DexMethodDef := []
  vmethods : List DexMethodDef := []
  cannos : List String := []
deriving DecidableEq, Repr

/-- The loaded program: the global class table and the set of interned type
names (`DexType::get_type(s)` succeeds iff `s ∈ knownTypes`), plus the set of
interned strings (`DexString::get_string`). -/
structure Program where
  classes : List DexClassDef := []
  knownTypes : List String := []
  knownStrings : List String := []
deriving DecidableEq, Repr

/-- Model of `type_class(t)`: look the type name up in the global class table. -/
def type_class (p : Program) (t : String) : Option DexClassDef :=
  p.classes.find? (fun c => c.cname = t)

/-- Model of `type_class_internal(t)`: like `type_class` but yields `none` for
external classes. -/
def type_class_internal (p : Program) (t : String) : Option DexClassDef :=
  match type_class p t with
  | none => none
  | some c => if c.isExternal then none else some c

/-- The scope handed to the seeders: the non-external classes of the table. -/
def scope (p : Program) : List DexClassDef :=
  p.classes.filter (fun c => !c.isExternal)

/-- Element identity of a field declared in class `cn`. -/
def fldId (cn : String) (f : DexFieldDef) : ElemId := .fld cn f.fname

/-- Element identity of a method declared in class `cn`. -/
def mthId (cn : String) (m : DexMethodDef) : ElemId := .mth cn m.mname m.margs

/-- Model of `is_init`: constructors are the direct methods named `<init>`. -/
def get_ctors (c : DexClassDef) : List DexMethodDef :=
  c.dmethods.filter (fun m => m.mname = "<init>")

/-- Model of `maybe_class_from_string`: `DexType::get_type` then `type_class`,
`nullptr` at either step propagating to `none`. -/
def maybe_class_from_string (p : Program) (classname : String) :
    Option DexClassDef :=
  if p.knownTypes.contains classname then
    type_class p classname
  else
    none

/-! ### Substring search (`std::string::find`) -/

/-- Whether `pat` is a prefix of `s` (character lists). -/
def isPrefixList : List Char → List Char → Bool
  | [], _ => true
  | _ :: _, [] => false
  | a :: as, b :: bs => a = b && isPrefixList as bs

/-- Model of `std::string::find`: the least index of `s` at which `pat` begins, if
any. -/
def findSub (pat : List Char) : List Char → Option Nat
  | [] => if isPrefixList pat [] then some 0 else none
  | c :: rest =>
    if isPrefixList pat (c :: rest) then some 0
    else (findSub pat rest).map (· + 1)

/-- Test for `s.find(pat) != std::string::npos` on Lean strings. -/
def strContainsSub (s pat : String) : Bool := (findSub pat.data s.data).isSome

/-- Model of `StringUtil`'s `starts_with(cname, prefix)`. -/
def starts_with (s pfx : String) : Bool := isPrefixList pfx.data s.data

/-! ### Member Resolver (`DexItemIter`, `blacklist_field`, `blacklist_method`)

The source functions recurse along the superclass edge with no revisit guard;
the embedding takes an explicit fuel argument. `superChain` records the types
the source recursion visits: step `n+1` is the superclass of the class
resolved at step `n`, `none` meaning the recursion has stopped there (either
the type resolved to no class, or the class had no superclass). -/

/-- The sequence of type names the `declared_only = false` super-walk visits
starting at `t`; `none` once the walk has reached a stopping point. -/
def superChain (p : Program) (t : String) : Nat → Option String
  | 0 => some t
  | n + 1 =>
    match superChain p t n with
    | none => none
    | some u =>
      match type_class p u with
      | none => none
      | some c => c.superclass

/-- The source recursion of `blacklist_field`/`blacklist_method` terminates on
`(p, t)` iff the visited chain reaches a stopping point. -/
def superWalkTerminates (p : Program) (t : String) : Prop :=
  ∃ n, superChain p t n = none

/-- Model of `DexItemIter<DexField*>::iterate`: yield nothing for an external class,
else yield the static fields then the instance fields. -/
def fieldIterate (c : DexClassDef) (yield : DexFieldDef → RCState → RCState)
    (st : RCState) : RCState :=
  if c.isExternal then st
  else c.ifields.foldl (fun s f => yield f s)
    (c.sfields.foldl (fun s f => yield f s) st)

/-- Model of `DexItemIter<DexMethod*>::iterate`: yield nothing for an external class,
else yield the direct methods then the virtual methods. -/
def methodIterate (c : DexClassDef) (yield : DexMethodDef → RCState → RCState)
    (st : RCState) : RCState :=
  if c.isExternal then st
  else c.vmethods.foldl (fun s m => yield m s)
    (c.dmethods.foldl (fun s m => yield m s) st)

/-- The yield closure of `blacklist_field`: skip on name mismatch, skip
non-public fields unless `declared`, otherwise `set_root(REFLECTION,
reflecting_method)`. -/
def fieldYield (origin : Option ElemId) (cn : String) (name : String)
    (declared : Bool) (f : DexFieldDef) (st : RCState) : RCState :=
  if f.fname ≠ name then st
  else if !f.fpublic && !declared then st
  else setRoot (fldId cn f) .REFLECTION origin st

/-- The yield closure of `blacklist_method`: additionally skip when a
parameter list is supplied and differs from the method's. -/
def methodYield (origin : Option ElemId) (cn : String) (name : String)
    (params : Option (List String)) (declared : Bool) (m : DexMethodDef)
    (st : RCState) : RCState :=
  if m.mname ≠ name then st
  else if params.isSome && params ≠ some m.margs then st
  else if !m.mpublic && !declared then st
  else setRoot (mthId cn m) .REFLECTION origin st

/-- Model of `blacklist_field(reflecting_method, type, name, declared)`. The source
recursion carries no fuel; `fuel` bounds the embedding, and whenever the walk
terminates (`superWalkTerminates`) a large enough fuel reproduces the
source's behavior. -/
def blacklist_field (p : Program) (origin : Option ElemId) :
    Nat → String → String → Bool → RCState → RCState
  | 0, _, _, _, st => st
  | fuel + 1, t, name, declared, st =>
    match type_class p t with
    | none => st
    | some c =>
      let st1 := fieldIterate c (fieldYield origin c.cname name declared) st
      if declared then st1
      else
        match c.superclass with
        | none => st1
        | some s => blacklist_field p origin fuel s name declared st1

/-- Model of `blacklist_method(reflecting_method, type, name, params, declared)`. -/
def blacklist_method (p : Program) (origin : Option ElemId) :
    Nat → String → String → Option (List String) → Bool → RCState → RCState
  | 0, _, _, _, _, st => st
  | fuel + 1, t, name, params, declared, st =>
    match type_class p t with
    | none => st
    | some c =>
      let st1 := methodIterate c (methodYield origin c.cname name params declared) st
      if declared then st1
      else
        match c.superclass with
        | none => st1
        | some s => blacklist_method p origin fuel s name params declared st1

/-- Fuel that suffices for every terminating super-walk inside a table of
`n` classes: one unit per class plus one. -/
def walkFuel (p : Program) : Nat := p.classes.length + 1

/-! ### Reflection Scanner (`analyze_reflection`) -/

/-- The `ReflectionType` enum of `analyze_reflection`. -/
inductive ReflectionType
  | GET_FIELD
  | GET_DECLARED_FIELD
  | GET_METHOD
  | GET_DECLARED_METHOD
  | GET_CONSTRUCTOR
  | GET_DECLARED_CONSTRUCTOR
  | INT_UPDATER
  | LONG_UPDATER
  | REF_UPDATER
deriving DecidableEq, Repr

/-- The two-level dispatch table `refls`: callee class name and method name to
reflection kind. -/
def refl_lookup (clsName mName : String) : Option ReflectionType :=
  if clsName = "Ljava/lang/Class;" then
    if mName = "getField" then some .GET_FIELD
    else if mName = "getDeclaredField" then some .GET_DECLARED_FIELD
    else if mName = "getMethod" then some .GET_METHOD
    else if mName = "getDeclaredMethod" then some .GET_DECLARED_METHOD
    else if mName = "getConstructor" then some .GET_CONSTRUCTOR
    else if mName = "getConstructors" then some .GET_CONSTRUCTOR
    else if mName = "getDeclaredConstructor" then some .GET_DECLARED_CONSTRUCTOR
    else if mName = "getDeclaredConstructors" then some .GET_DECLARED_CONSTRUCTOR
    else none
  else if clsName = "Ljava/util/concurrent/atomic/AtomicIntegerFieldUpdater;" then
    if mName = "newUpdater" then some .INT_UPDATER else none
  else if clsName = "Ljava/util/concurrent/atomic/AtomicLongFieldUpdater;" then
    if mName = "newUpdater" then some .LONG_UPDATER else none
  else if clsName = "Ljava/util/concurrent/atomic/AtomicReferenceFieldUpdater;" then
    if mName = "newUpdater" then some .REF_UPDATER else none
  else none

/-- Model of `ReflectionAnalysis::get_abstract_object(reg, insn)` for the instruction
at index `i`. -/
def get_abstract_object (mc : MethodCode) (i reg : Nat) :
    Option AbstractObject :=
  (mc.absObjects.find? (fun x => x.1 = (i, reg))).map (·.2)

/-- Model of `ReflectionAnalysis::get_method_params(insn)` for the instruction at
index `i`. -/
def get_method_params (mc : MethodCode) (i : Nat) : Option (List String) :=
  (mc.methodParams.find? (fun x => x.1 = i)).map (·.2)

/-- The `dex_string_lookup` lambda of `analyze_reflection`: for constructor
kinds, the interned `<init>` token (no register consulted); otherwise the
abstract object of argument register 2 (REF_UPDATER) or 1 (all other kinds),
yielding its string payload only when its kind is STRING. -/
def dex_string_lookup (p : Program) (mc : MethodCode) (rt : ReflectionType)
    (i : Nat) (insn : IRInstruction) : Option String :=
  if rt = .GET_CONSTRUCTOR ∨ rt = .GET_DECLARED_CONSTRUCTOR then
    if p.knownStrings.contains "<init>" then some "<init>" else none
  else
    let argStrIdx : Nat := if rt = .REF_UPDATER then 2 else 1
    match get_abstract_object mc i (insn.srcs.getD argStrIdx 0) with
    | none => none
    | some a => if a.objKind = .STRING then a.dexString else none

/-- The Member-Resolver call a matched reflection site performs. `ty` is the
(possibly absent) `dex_type` of the receiver's abstract object; an absent
type makes the dispatched `blacklist_*` call a no-op (`type_class(nullptr)`
is null). -/
inductive ReflAction
  | fld (ty : Option String) (name : String) (declared : Bool)
  | mth (ty : Option String) (name : String) (params : Option (List String))
      (declared : Bool)
deriving DecidableEq, Repr

/-- The switch at the end of the instruction loop of `analyze_reflection`,
as a data value. -/
def reflDispatch (rt : ReflectionType) (ty : Option String) (name : String)
    (params : Option (List String)) : ReflAction :=
  match rt with
  | .GET_FIELD => .fld ty name false
  | .GET_DECLARED_FIELD => .fld ty name true
  | .GET_METHOD => .mth ty name params false
  | .GET_CONSTRUCTOR => .mth ty name params false
  | .GET_DECLARED_METHOD => .mth ty name params true
  | .GET_DECLARED_CONSTRUCTOR => .mth ty name params true
  | .INT_UPDATER => .fld ty name true
  | .LONG_UPDATER => .fld ty name true
  | .REF_UPDATER => .fld ty name true

/-- One iteration of the instruction loop of `analyze_reflection`: the checks
that decide whether the call site at index `i` dispatches to the Member
Resolver, and with which arguments. `none` means the site is skipped. -/
def reflSiteAction (p : Program) (mc : MethodCode) (i : Nat)
    (insn : IRInstruction) : Option ReflAction :=
  if !insn.isInvoke then none
  else
    match refl_lookup insn.calleeClass insn.calleeName with
    | none => none
    | some rt =>
      match get_abstract_object mc i (insn.srcs.getD 0 0) with
      | none => none
      | some argCls =>
        if argCls.objKind ≠ .CLASS then none
        else
          match dex_string_lookup p mc rt i insn with
          | none => none
          | some name =>
            let params :=
              if rt = .GET_METHOD ∨ rt = .GET_CONSTRUCTOR ∨
                  rt = .GET_DECLARED_METHOD ∨ rt = .GET_DECLARED_CONSTRUCTOR
              then get_method_params mc i
              else none
            some (reflDispatch rt argCls.dexType name params)

/-- Perform the Member-Resolver call of a matched site. -/
def applyReflAction (p : Program) (origin : Option ElemId) :
    ReflAction → RCState → RCState
  | .fld ty name declared, st =>
    match ty with
    | none => st
    | some t => blacklist_field p origin (walkFuel p) t name declared st
  | .mth ty name params declared, st =>
    match ty with
    | none => st
    | some t => blacklist_method p origin (walkFuel p) t name params declared st

/-- The body of `walk::code`'s lambda in `analyze_reflection`, for one method
(skipping methods without code, as `walk::code` does). -/
def analyze_reflection_method (p : Program) (cn : String) (m : DexMethodDef)
    (st : RCState) : RCState :=
  match m.code with
  | none => st
  | some mc =>
    mc.insns.enum.foldl
      (fun s (ix : Nat × IRInstruction) =>
        match reflSiteAction p mc ix.1 ix.2 with
        | none => s
        | some act => applyReflAction p (some (mthId cn m)) act s)
      st

/-- Model of `analyze_reflection(scope)`: walk the code of every method in scope. -/
def analyze_reflection (p : Program) (st : RCState) : RCState :=
  (scope p).foldl
    (fun s c =>
      (c.dmethods ++ c.vmethods).foldl
        (fun s2 m => analyze_reflection_method p c.cname m s2) s)
    st

/-! ### String / classname marking -/

/-- Model of `mark_reachable_by_classname(DexClass*)`: `ref_by_string` on the class
and on every declared direct method, virtual method, static field and
instance field. Null classes are handled at the call sites below. -/
def mark_reachable_by_classname_cls (c : DexClassDef) (st : RCState) :
    RCState :=
  let st := setByString (.cls c.cname) st
  let st := c.dmethods.foldl (fun s m => setByString (mthId c.cname m) s) st
  let st := c.vmethods.foldl (fun s m => setByString (mthId c.cname m) s) st
  let st := c.sfields.foldl (fun s f => setByString (fldId c.cname f) s) st
  c.ifields.foldl (fun s f => setByString (fldId c.cname f) s) st

/-- Model of `mark_reachable_by_classname(DexType*)`: resolve with
`type_class_internal` (external classes resolve to null) and mark. -/
def mark_reachable_by_classname_type (p : Program) (t : String)
    (st : RCState) : RCState :=
  match type_class_internal p t with
  | none => st
  | some c => mark_reachable_by_classname_cls c st

/-- Model of `mark_reachable_by_string(DexMethod*)`: `ref_by_string` on the method's
class when it resolves internally, then on the method itself. -/
def mark_reachable_by_string_mth (p : Program) (cn : String)
    (m : DexMethodDef) (st : RCState) : RCState :=
  let st :=
    match type_class_internal p cn with
    | none => st
    | some c => setByString (.cls c.cname) st
  setByString (mthId cn m) st

/-! ### Type hierarchy (`build_type_hierarchy` / `get_all_children`)

The hierarchy is built from the scope: it has one edge per scope class, from
the class to its superclass. `ClassHierarchy` and `get_all_children` are
declared in `ClassHierarchy.h`, outside `src/`; they are modelled from the
spec: "`children_of(T)` = transitive subtypes of `T`" over the superclass
edges contributed by the scope. -/

/-- The superclass edge contributed by a scope class named `t`. -/
def superEdge (p : Program) (t : String) : Option String :=
  match (scope p).find? (fun c => c.cname = t) with
  | none => none
  | some c => c.superclass

/-- Whether `t` reaches `root` by following 1 to `fuel` superclass edges. -/
def reachesRoot (p : Program) : Nat → String → String → Bool
  | 0, _, _ => false
  | fuel + 1, t, root =>
    match superEdge p t with
    | none => false
    | some s => s = root || reachesRoot p fuel s root

/-- Model of `get_all_children(build_type_hierarchy(scope), root)`: the scope classes
that transitively extend `root`. -/
def childrenOf (p : Program) (root : String) : List String :=
  ((scope p).filter (fun c => reachesRoot p (walkFuel p) c.cname root)).map
    (·.cname)

/-! ### Resource Layout Seeder (`analyze_reachable_from_xml_layouts`) -/

/-- Model of `matches_onclick_method`: exactly one parameter, of the framework view
type, and a name in the set of bound attribute values. -/
def matches_onclick_method (m : DexMethodDef) (names_to_keep : List String) :
    Bool :=
  match m.margs with
  | [t] =>
    if t = "Landroid/view/View;" then names_to_keep.contains m.mname
    else false
  | _ => false

/-- Model of `mark_onclick_attributes_reachable`: return on an empty value set; then
`always_assert` that the UI base type resolves (`none` embeds the assertion
firing); then mark every matching virtual method of every non-external child
of the base type. The `type_class` lookup of a child never fails (children
are scope classes), so the dead `none` branch skips. -/
def mark_onclick_attributes_reachable (p : Program)
    (onclick_attribute_values : List String) (st : RCState) :
    Option RCState :=
  if onclick_attribute_values.isEmpty then some st
  else if !(p.knownTypes.contains "Landroid/content/Context;") then none
  else
    some <|
      (childrenOf p "Landroid/content/Context;").foldl
        (fun s t =>
          match type_class p t with
          | none => s
          | some c =>
            if c.isExternal then s
            else
              c.vmethods.foldl
                (fun s2 m =>
                  if matches_onclick_method m onclick_attribute_values then
                    setByXml (mthId c.cname m) s2
                  else s2)
                s)
        st

/-- Model of `mark_reachable_by_xml`: `set_referenced_by_resource_xml` on the resolved
class and on each of its constructors; unresolved names are skipped. -/
def mark_reachable_by_xml (p : Program) (classname : String) (st : RCState) :
    RCState :=
  match maybe_class_from_string p classname with
  | none => st
  | some c =>
    let st := setByXml (.cls c.cname) st
    (get_ctors c).foldl (fun s m => setByXml (mthId c.cname m) s) st

/-- The handler attribute name. Modelled from the spec: the constant
`ONCLICK_ATTRIBUTE` is declared in `RedexResources.h`, outside `src/`; the
spec calls it the `android:onClick` handler attribute. -/
def ONCLICK_ATTRIBUTE : String := "android:onClick"

/-- Model of `multimap_values_to_set`: the values bound to `key`. (The source returns
a `std::set`; the list below is membership-equivalent, which is all the
consumers inspect.) -/
def multimap_values_to_set (attribute_values : List (String × String))
    (key : String) : List String :=
  (attribute_values.filter (fun kv => kv.1 = key)).map (·.2)

/-- Model of `analyze_reachable_from_xml_layouts`: mark the classes named in layouts,
then the click-handler candidates. `layout_classes` and `attribute_values`
are the collector outputs (external collaborators). -/
def analyze_reachable_from_xml_layouts (p : Program)
    (layout_classes : List String)
    (attribute_values : List (String × String)) (st : RCState) :
    Option RCState :=
  let st := layout_classes.foldl (fun s cn => mark_reachable_by_xml p cn s) st
  mark_onclick_attributes_reachable p
    (multimap_values_to_set attribute_values ONCLICK_ATTRIBUTE) st

/-! ### Manifest Seeder (`analyze_reachable_from_manifest`) -/

/-- Model of `mark_manifest_root`: resolve the name; dangling names are logged and
skipped; otherwise `set_root(MANIFEST)` on the class, bump its keep count,
and `set_root(MANIFEST)` on every constructor. -/
def mark_manifest_root (p : Program) (classname : String) (st : RCState) :
    RCState :=
  match maybe_class_from_string p classname with
  | none => st
  | some c =>
    let st := setRoot (.cls c.cname) .MANIFEST none st
    let st := incKeepCount (.cls c.cname) st
    (get_ctors c).foldl (fun s m => setRoot (mthId c.cname m) .MANIFEST none s)
      st

/-- Model of `ComponentTag`. -/
inductive ComponentTagKind
  | Activity
  | ActivityAlias
  | Receiver
  | Service
  | Provider
deriving DecidableEq, Repr

/-- One component tag of the parsed manifest view. -/
structure ComponentTagInfo where
  tag : ComponentTagKind
  classname : String
  isExported : Bool := false
  hasIntentFilters : Bool := false
  authorityClasses : List String := []
deriving DecidableEq, Repr

/-- The parsed manifest view returned by `get_manifest_class_info` (an
external collaborator; only its output shape is modelled). -/
structure ManifestClassInfo where
  applicationClasses : List String := []
  instrumentationClasses : List String := []
  componentTags : List ComponentTagInfo := []
deriving DecidableEq, Repr

/-- The `string_to_tag` map; `std::map::at` on any other string throws,
embedded as `none`. -/
def tagOfString (s : String) : Option ComponentTagKind :=
  if s = "activity" then some .Activity
  else if s = "activity-alias" then some .ActivityAlias
  else none

/-- The per-tag switch of `analyze_reachable_from_manifest`. -/
def handleComponentTag (p : Program) (prune : List ComponentTagKind)
    (tg : ComponentTagInfo) (st : RCState) : RCState :=
  match tg.tag with
  | .Activity | .ActivityAlias =>
    if tg.isExported || tg.hasIntentFilters || !(prune.contains tg.tag) then
      mark_manifest_root p tg.classname st
    else
      match maybe_class_from_string p tg.classname with
      | none => st
      | some c =>
        unsetAllowObfuscation (.cls c.cname)
          (incKeepCount (.cls c.cname) st)
  | .Receiver | .Service => mark_manifest_root p tg.classname st
  | .Provider =>
    let st := mark_manifest_root p tg.classname st
    tg.authorityClasses.foldl (fun s cn => mark_manifest_root p cn s) st

/-- Model of `analyze_reachable_from_manifest`: build the prune set (throwing — `none`
— on a name outside the enum), then root the application classes, the
instrumentation classes, and the component tags. -/
def analyze_reachable_from_manifest (p : Program)
    (info : ManifestClassInfo) (prune_strs : List String) (st : RCState) :
    Option RCState :=
  match prune_strs.mapM tagOfString with
  | none => none
  | some prune =>
    let st := info.applicationClasses.foldl
      (fun s cn => mark_manifest_root p cn s) st
    let st := info.instrumentationClasses.foldl
      (fun s cn => mark_manifest_root p cn s) st
    some (info.componentTags.foldl
      (fun s tg => handleComponentTag p prune tg s) st)

/-! ### Serde superclass marker -/

/-- Model of `initialize_reachable_for_json_serde` (source name kept in spirit; the
identifier is shortened): resolve the configured base names, return if none
resolve, else set `is_serde` on every transitive subclass of each resolved
base. (The source accumulates the children of all bases in one shared set
and re-marks it per base; since `set_is_serde` is an idempotent flag-set the
per-base marking below produces the same final state.) -/
def reachable_for_json_serde (p : Program) (supercls_names : List String)
    (st : RCState) : RCState :=
  let serde_superclses := supercls_names.filter (p.knownTypes.contains ·)
  if serde_superclses.isEmpty then st
  else
    serde_superclses.foldl
      (fun s sup =>
        (childrenOf p sup).foldl
          (fun s2 t =>
            match type_class p t with
            | none => s2
            | some c => setIsSerde (.cls c.cname) s2)
          s)
      st

/-! ### Annotation Propagator (`keep_annotated_classes`) -/

/-- Model of `anno_set_contains`: whether any declared annotation type is in the keep
set (a null annotation set behaves as the empty list). -/
def anno_set_contains (annos : List String) (keep : List String) : Bool :=
  annos.any (fun a => keep.contains a)

/-- Model of `mark_only_reachable_directly`: `ref_by_type`. -/
def mark_only_reachable_directly (e : ElemId) : RCState → RCState :=
  setByType e

/-- Model of `keep_annotated_classes`: mark every class and declared member whose
annotations meet the keep set. -/
def keep_annotated_classes (p : Program) (keep : List String)
    (st : RCState) : RCState :=
  (scope p).foldl
    (fun s c =>
      let s := if anno_set_contains c.cannos keep then
          mark_only_reachable_directly (.cls c.cname) s else s
      let s := c.dmethods.foldl
        (fun s2 m => if anno_set_contains m.mannos keep then
            mark_only_reachable_directly (mthId c.cname m) s2 else s2) s
      let s := c.vmethods.foldl
        (fun s2 m => if anno_set_contains m.mannos keep then
            mark_only_reachable_directly (mthId c.cname m) s2 else s2) s
      let s := c.sfields.foldl
        (fun s2 f => if anno_set_contains f.fannos keep then
            mark_only_reachable_directly (fldId c.cname f) s2 else s2) s
      c.ifields.foldl
        (fun s2 f => if anno_set_contains f.fannos keep then
            mark_only_reachable_directly (fldId c.cname f) s2 else s2) s)
    st

/-! ### Configured keeps (`keep_class_members`, `keep_methods`) -/

/-- The inner static-field loop of `keep_class_members`, for one class and
the remainder `rem` of a matching entry: every static field whose name
occurs in `rem` is marked `by_type`, together with the class. -/
def keepMemsProcessEntry (c : DexClassDef) (rem : List Char) (st : RCState) :
    RCState :=
  c.sfields.foldl
    (fun s f =>
      if (findSub f.fname.data rem).isSome then
        mark_only_reachable_directly (.cls c.cname)
          (mark_only_reachable_directly (fldId c.cname f) s)
      else s)
    st

/-- The remainder of `entry` after the first occurrence of `name`
(`class_mem_str.substr(pos + name.size())`). -/
def remAfter (entry name : String) : List Char :=
  match findSub name.data entry.data with
  | none => []
  | some pos => entry.data.drop (pos + name.data.length)

/-- The entry loop of `keep_class_members` for one class: scan the configured
entries in order; at the first entry containing the class name, process its
remainder and `break`. -/
def keep_mems_cls (c : DexClassDef) : List String → RCState → RCState
  | [], st => st
  | e :: rest, st =>
    match findSub c.cname.data e.data with
    | none => keep_mems_cls c rest st
    | some pos =>
      keepMemsProcessEntry c (e.data.drop (pos + c.cname.data.length)) st

/-- Model of `keep_class_members(scope, keep_class_mems)`. -/
def keep_class_members (p : Program) (keep_class_mems : List String)
    (st : RCState) : RCState :=
  (scope p).foldl (fun s c => keep_mems_cls c keep_class_mems s) st

/-- Model of `keep_methods(scope, ms)`: `ref_by_string` on every direct or virtual
method whose name is in the configured set. -/
def keep_methods (p : Program) (ms : List String) (st : RCState) : RCState :=
  (scope p).foldl
    (fun s c =>
      let s := c.dmethods.foldl
        (fun s2 m => if ms.contains m.mname then
            setByString (mthId c.cname m) s2 else s2) s
      c.vmethods.foldl
        (fun s2 m => if ms.contains m.mname then
            setByString (mthId c.cname m) s2 else s2) s)
    st

/-! ### Reflected packages (`in_reflected_pkg` and its two passes) -/

/-- Model of `in_reflected_pkg`: true iff the class or one of its internally resolved
superclasses is in the banned set. The source recursion is unbounded; `fuel`
bounds the embedding. -/
def in_reflected_pkg (p : Program) (pkgSet : List String) :
    Nat → Option DexClassDef → Bool
  | _, none => false
  | 0, some _ => false
  | fuel + 1, some c =>
    if pkgSet.contains c.cname then true
    else
      in_reflected_pkg p pkgSet fuel
        (c.superclass.bind (type_class_internal p))

/-- The first pass over the scope: seed the banned set with every class whose
name starts with a configured package prefix. -/
def reflPkgSeed (p : Program) (reflected_package_names : List String) :
    List String :=
  ((scope p).filter
      (fun c => reflected_package_names.any (fun pk => starts_with c.cname pk))).map
    (·.cname)

/-- The second pass: walk the scope in order; a class in a reflected package
(directly or through its superclasses, including classes added by earlier
iterations of this very pass) is added to the set and marked by classname. -/
def reflectedPackagesPass (p : Program) (reflected_package_names : List String)
    (st : RCState) : RCState :=
  ((scope p).foldl
      (fun (acc : List String × RCState) c =>
        if in_reflected_pkg p acc.1 (walkFuel p) (some c) then
          (c.cname :: acc.1, mark_reachable_by_classname_cls c acc.2)
        else acc)
      (reflPkgSeed p reflected_package_names, st)).2

/-! ### Serializable chain (`analyze_serializable`) -/

/-- Transitive interface implementation, through superclass and interface
edges. `get_all_implementors` is declared in `TypeSystem.h`, outside `src/`;
modelled from the spec: "`implementors_of(I)` = transitive subtypes whose
declared interface set closes over `I`". -/
def implementsIface (p : Program) (iface : String) :
    Nat → String → Bool
  | 0, _ => false
  | fuel + 1, cn =>
    match type_class p cn with
    | none => false
    | some c =>
      c.interfaces.any (fun i => i = iface || implementsIface p iface fuel i) ||
        match c.superclass with
        | none => false
        | some s => implementsIface p iface fuel s

/-- Model of `get_all_implementors(scope, iface)` as the list of implementing scope
class names. -/
def implementorsOf (p : Program) (iface : String) : List String :=
  ((scope p).filter (fun c => implementsIface p iface (walkFuel p) c.cname)).map
    (·.cname)

/-- Model of `analyze_serializable`: for each serializable implementor whose
superclass resolves, is internal and is not itself serializable, root every
zero-argument constructor of that superclass with reason SERIALIZABLE. -/
def analyze_serializable (p : Program) (st : RCState) : RCState :=
  if !(p.knownTypes.contains "Ljava/io/Serializable;") then st
  else
    let children := implementorsOf p "Ljava/io/Serializable;"
    children.foldl
      (fun s childName =>
        match type_class p childName with
        | none => s
        | some child_cls =>
          match child_cls.superclass with
          | none => s
          | some child_super_type =>
            match type_class p child_super_type with
            | none => s
            | some child_supercls =>
              if child_supercls.isExternal then s
              else if children.contains child_super_type then s
              else
                child_supercls.dmethods.foldl
                  (fun s2 m =>
                    if m.mname = "<init>" && m.margs.isEmpty then
                      setRoot (mthId child_supercls.cname m) .SERIALIZABLE none
                        s2
                    else s2)
                  s)
      st

/-! ### Code walk (`recompute_classes_reachable_from_code`) -/

/-- Model of `recompute_classes_reachable_from_code`: mark every method in scope that
carries the native access flag, by string, together with its class. -/
def recompute_classes_reachable_from_code (p : Program) (st : RCState) :
    RCState :=
  (scope p).foldl
    (fun s c =>
      (c.dmethods ++ c.vmethods).foldl
        (fun s2 m =>
          if m.mnative then mark_reachable_by_string_mth p c.cname m s2
          else s2)
        s)
    st

/-! ### XML recompute entrypoint -/

/-- The clearing lambda of `recompute_reachable_from_xml_layouts`, for one
class: unset the xml flag on the class, its direct methods, virtual methods,
instance fields and static fields. -/
def clearXmlClass (c : DexClassDef) (st : RCState) : RCState :=
  let st := unsetByXml (.cls c.cname) st
  let st := c.dmethods.foldl (fun s m => unsetByXml (mthId c.cname m) s) st
  let st := c.vmethods.foldl (fun s m => unsetByXml (mthId c.cname m) s) st
  let st := c.ifields.foldl (fun s f => unsetByXml (fldId c.cname f) s) st
  c.sfields.foldl (fun s f => unsetByXml (fldId c.cname f) s) st

/-- The clearing pass over the scope. -/
def clearXmlPass (p : Program) (st : RCState) : RCState :=
  (scope p).foldl (fun s c => clearXmlClass c s) st

/-- Model of `recompute_reachable_from_xml_layouts`: clear the xml flags of every
scope class and its members, then re-run the layout seeder. -/
def recompute_reachable_from_xml_layouts (p : Program)
    (layout_classes : List String)
    (attribute_values : List (String × String)) (st : RCState) :
    Option RCState :=
  analyze_reachable_from_xml_layouts p layout_classes attribute_values
    (clearXmlPass p st)

/-! ### Orchestrator (`init_permanently_reachable_classes`,
`init_reachable_classes`)

`init_reachable_classes` is a fixed sequence of seeder calls gated by the
configuration; the embedding lists the calls as `SeederPhase` labels
(`initPhaseOrder` reproduces the gating and call order of the source) and
executes them in that order, so that the executed pipeline and the stated
order are the same object. -/

/-- The configuration keys `init_permanently_reachable_classes` and
`init_reachable_classes` read, with their defaults. -/
structure Config where
  apkDir : String := ""
  keepPackages : List String := []
  keepAnnotations : List String := []
  keepClassMembers : List String := []
  keepMethods : List String := []
  computeXmlReachability : Bool := true
  pruneUnexportedComponents : List String := []
  analyzeNativeLibReachability : Bool := true
  jsonSerdeSupercls : List String := []
deriving DecidableEq, Repr

/-- The full input of the seeding phase: the program, the configuration, the
collector outputs for the application directory (manifest view, layout
classes, attribute bindings, native-library class names) and the baseline
`no_optimizations_anno` set. -/
structure Env where
  prog : Program := {}
  cfg : Config := {}
  manifestInfo : ManifestClassInfo := {}
  layoutClasses : List String := []
  attributeValues : List (String × String) := []
  nativeClasses : List String := []
  baselineAnnos : List String := []
deriving DecidableEq, Repr

/-- The annotation-type merge at the head of
`init_permanently_reachable_classes`: start from `no_optimizations_anno` and
add every configured annotation name that resolves; unresolved names are
warned about and skipped. -/
def load_annotation_types (p : Program) (baseline cfgAnnos : List String) :
    List String :=
  cfgAnnos.foldl
    (fun acc a => if p.knownTypes.contains a then acc ++ [a] else acc)
    baseline

/-- The native-library classname loop: for every extracted name whose type is
interned, mark by classname; names without a type are skipped. -/
def native_lib_pass (p : Program) (native_classes : List String)
    (st : RCState) : RCState :=
  native_classes.foldl
    (fun s cn =>
      if p.knownTypes.contains cn then mark_reachable_by_classname_type p cn s
      else s)
    st

/-- Labels for the seeder calls `init_reachable_classes` performs, in source
order. -/
inductive SeederPhase
  | keepAnnotated
  | keepClassMembersPhase
  | keepMethodsPhase
  | manifest
  | xmlLayouts
  | nativeLibNames
  | reflection
  | reflectedPackages
  | serializable
  | nativeMethodWalk
  | jsonSerde
deriving DecidableEq, Repr

/-- The seeder call each label stands for. -/
def runSeederPhase (env : Env) : SeederPhase → RCState → Option RCState
  | .keepAnnotated, st =>
    some (keep_annotated_classes env.prog
      (load_annotation_types env.prog env.baselineAnnos
        env.cfg.keepAnnotations) st)
  | .keepClassMembersPhase, st =>
    some (keep_class_members env.prog env.cfg.keepClassMembers st)
  | .keepMethodsPhase, st =>
    some (keep_methods env.prog env.cfg.keepMethods st)
  | .manifest, st =>
    analyze_reachable_from_manifest env.prog env.manifestInfo
      env.cfg.pruneUnexportedComponents st
  | .xmlLayouts, st =>
    analyze_reachable_from_xml_layouts env.prog env.layoutClasses
      env.attributeValues st
  | .nativeLibNames, st =>
    some (native_lib_pass env.prog env.nativeClasses st)
  | .reflection, st => some (analyze_reflection env.prog st)
  | .reflectedPackages, st =>
    some (reflectedPackagesPass env.prog env.cfg.keepPackages st)
  | .serializable, st => some (analyze_serializable env.prog st)
  | .nativeMethodWalk, st =>
    some (recompute_classes_reachable_from_code env.prog st)
  | .jsonSerde, st =>
    some (reachable_for_json_serde env.prog env.cfg.jsonSerdeSupercls st)

/-- The seeder calls of `init_reachable_classes` in source order:
`init_permanently_reachable_classes` runs the annotation propagator, the
configured member and method keeps, then — under `apk_dir` — the manifest
and layout seeders (under `compute_xml_reachability`) and the native-library
names (under `analyze_native_lib_reachability`), then the reflection
scanner, the reflected-package passes, and the serializable chain; after it
`init_reachable_classes` runs `recompute_classes_reachable_from_code` and
finally the serde superclass marker. -/
def initPhaseOrder (cfg : Config) : List SeederPhase :=
  [.keepAnnotated, .keepClassMembersPhase, .keepMethodsPhase] ++
    (if cfg.apkDir ≠ "" then
      (if cfg.computeXmlReachability then [.manifest, .xmlLayouts] else []) ++
        (if cfg.analyzeNativeLibReachability then [.nativeLibNames] else [])
    else []) ++
    [.reflection, .reflectedPackages, .serializable] ++
    [.nativeMethodWalk] ++
    [.jsonSerde]

/-- Run a list of seeder phases in order, stopping with `none` if one
aborts. -/
def runSeederPhases (env : Env) : List SeederPhase → RCState → Option RCState
  | [], st => some st
  | ph :: rest, st =>
    match runSeederPhase env ph st with
    | none => none
    | some st' => runSeederPhases env rest st'

/-- Model of `init_reachable_classes(scope, config, no_optimizations_anno)`. -/
def init_reachable_classes (env : Env) (st : RCState) : Option RCState :=
  runSeederPhases env (initPhaseOrder env.cfg) st

/-! ## Generic lemmas about point updates and folds over the flag state -/

theorem upd_apply (e : ElemId) (f : RState → RState) (st : RCState)
    (x : ElemId) : upd e f st x = if x = e then f (st x) else st x := rfl

theorem upd_self (e : ElemId) (f : RState → RState) (st : RCState) :
    upd e f st e = f (st e) := by
  simp [upd]

theorem upd_ne (e : ElemId) (f : RState → RState) (st : RCState) (x : ElemId)
    (h : x ≠ e) : upd e f st x = st x := by
  simp [upd, h]

/-- A fold whose step never changes the state at `e` leaves `e` unchanged. -/
theorem foldl_out {α : Type} (l : List α) (g : α → RCState → RCState)
    (st : RCState) (e : ElemId) (h : ∀ a s, g a s e = s e) :
    (l.foldl (fun s a => g a s) st) e = st e := by
  induction l generalizing st with
  | nil => rfl
  | cons a l ih =>
    simp only [List.foldl_cons]
    rw [ih (g a st)]
    exact h a st

/-- Variant of `foldl_out` with the no-change hypothesis restricted to list members. -/
theorem foldl_out_mem {α : Type} (l : List α) (g : α → RCState → RCState)
    (st : RCState) (e : ElemId) (h : ∀ a ∈ l, ∀ s, g a s e = s e) :
    (l.foldl (fun s a => g a s) st) e = st e := by
  induction l generalizing st with
  | nil => rfl
  | cons a l ih =>
    simp only [List.foldl_cons]
    rw [ih (g a st) fun b hb s => h b (List.mem_cons_of_mem a hb) s]
    exact h a (List.mem_cons_self a l) st

/-- A property of the state at `e` preserved by every step of a fold is
preserved by the fold. -/
theorem foldl_mono {α : Type} (l : List α) (g : α → RCState → RCState)
    (st : RCState) (e : ElemId) (P : RState → Prop)
    (hstep : ∀ a s, P (s e) → P (g a s e)) (h : P (st e)) :
    P ((l.foldl (fun s a => g a s) st) e) := by
  induction l generalizing st with
  | nil => exact h
  | cons a l ih =>
    simp only [List.foldl_cons]
    exact ih (g a st) (hstep a st h)

/-- A property established by the fold step of some list element and
preserved by every step holds after the fold. -/
theorem foldl_estab {α : Type} (l : List α) (g : α → RCState → RCState)
    (st : RCState) (e : ElemId) (a : α) (ha : a ∈ l) (P : RState → Prop)
    (hstep : ∀ b s, P (s e) → P (g b s e))
    (hset : ∀ s, P (g a s e)) :
    P ((l.foldl (fun s b => g b s) st) e) := by
  induction l generalizing st with
  | nil => cases ha
  | cons b l ih =>
    simp only [List.foldl_cons]
    rcases List.mem_cons.mp ha with rfl | ha'
    · exact foldl_mono l g (g a st) e P hstep (hset st)
    · exact ih (g b st) ha'

/-- Characterization of a boolean projection after a fold whose step raises
it at `e` exactly when `q a e` holds. -/
theorem foldl_proj_char {α : Type} (l : List α) (g : α → RCState → RCState)
    (proj : RState → Bool) (q : α → ElemId → Bool)
    (hg : ∀ a s x, proj (g a s x) = (proj (s x) || q a x))
    (st : RCState) (e : ElemId) :
    proj ((l.foldl (fun s a => g a s) st) e) =
      (proj (st e) || l.any (fun a => q a e)) := by
  induction l generalizing st with
  | nil => simp
  | cons a l ih =>
    simp only [List.foldl_cons, List.any_cons]
    rw [ih (g a st), hg a st e, Bool.or_assoc]

/-- Characterization of a boolean projection after a fold whose step lowers
it at `e` exactly when `q a e` holds. -/
theorem foldl_proj_char_clear {α : Type} (l : List α)
    (g : α → RCState → RCState) (proj : RState → Bool) (q : α → ElemId → Bool)
    (hg : ∀ a s x, proj (g a s x) = (proj (s x) && !q a x))
    (st : RCState) (e : ElemId) :
    proj ((l.foldl (fun s a => g a s) st) e) =
      (proj (st e) && !l.any (fun a => q a e)) := by
  induction l generalizing st with
  | nil => simp
  | cons a l ih =>
    simp only [List.foldl_cons, List.any_cons]
    rw [ih (g a st), hg a st e]
    cases proj (st e) <;> cases q a e <;> simp

/-! ## Claim C9: orchestrator phase order -/

/-- A configuration that enables every gated seeder. -/
def fullCfg : Config := { apkDir := "app" }

/-- C9, counterexample: with every seeder enabled, the orchestrator does not
run the phases in the claimed order (…, serializable chain, serde superclass
marker, native-method code walk): the serde marker is the final call, after
the native-method walk. -/
theorem c9_counterexample :
    initPhaseOrder fullCfg ≠
      [.keepAnnotated, .keepClassMembersPhase, .keepMethodsPhase, .manifest,
        .xmlLayouts, .nativeLibNames, .reflection, .reflectedPackages,
        .serializable, .jsonSerde, .nativeMethodWalk] := by
  decide

/-- C9, amended: for every configuration that enables all gated seeders, the
orchestrator runs annotation propagation, the configured member and method
keeps, manifest seeding, resource-layout seeding, native-library classnames,
reflection scanning, reflected-package expansion, the serializable chain,
then the native-method code walk, and finally the serde superclass marker —
the serde marker runs after (not before) the native-method walk. -/
theorem c9_phase_order (cfg : Config) (h1 : cfg.apkDir ≠ "")
    (h2 : cfg.computeXmlReachability = true)
    (h3 : cfg.analyzeNativeLibReachability = true) :
    initPhaseOrder cfg =
      [.keepAnnotated, .keepClassMembersPhase, .keepMethodsPhase, .manifest,
        .xmlLayouts, .nativeLibNames, .reflection, .reflectedPackages,
        .serializable, .nativeMethodWalk, .jsonSerde] := by
  simp [initPhaseOrder, h1, h2, h3]

/-- Witness for `c9_phase_order` at the concrete full configuration. -/
theorem c9_phase_order_witness :
    initPhaseOrder fullCfg =
      [.keepAnnotated, .keepClassMembersPhase, .keepMethodsPhase, .manifest,
        .xmlLayouts, .nativeLibNames, .reflection, .reflectedPackages,
        .serializable, .nativeMethodWalk, .jsonSerde] :=
  c9_phase_order fullCfg (by decide) (by decide) (by decide)

/-! ## Claim C2: the super-walk on a cyclic superclass chain -/

/-- A program whose superclass chain is a two-class cycle. -/
def pC2 : Program :=
  { classes :=
      [{ cname := "LA;", superclass := some "LB;" },
        { cname := "LB;", superclass := some "LA;" }],
    knownTypes := ["LA;", "LB;"] }

/-- Unfolding equation for `superChain` at a successor index. -/
theorem superChain_succ (p : Program) (t : String) (n : Nat) :
    superChain p t (n + 1) =
      match superChain p t n with
      | none => none
      | some u =>
        match type_class p u with
        | none => none
        | some c => c.superclass := rfl

/-- On the cyclic program the walk alternates between the two classes
forever. -/
theorem superChain_pC2_cyc (n : Nat) :
    superChain pC2 "LA;" n = some "LA;" ∨
      superChain pC2 "LA;" n = some "LB;" := by
  induction n with
  | zero => left; rfl
  | succ n ih =>
    rcases ih with h | h
    · right; rw [superChain_succ, h]; rfl
    · left; rw [superChain_succ, h]; rfl

/-- C2, evaluating the code at the failing input: on the cyclic program the
super-walk of `blacklist_field`/`blacklist_method` (whose visited sequence is
`superChain`) never reaches a stopping point — the source recursion, which
has no revisit guard, recurses forever — even though the walk revisits its
starting class after two steps. -/
theorem c2_superwalk_diverges_on_cycle :
    (∀ n, (superChain pC2 "LA;" n).isSome = true) ∧
      superChain pC2 "LA;" 2 = superChain pC2 "LA;" 0 := by
  constructor
  · intro n
    rcases superChain_pC2_cyc n with h | h <;> rw [h] <;> rfl
  · rfl

/-! ## Claim C1: Member Resolver on external classes and superclasses -/

/-- Unfolding equation of `blacklist_field` at positive fuel. -/
theorem blacklist_field_succ (p : Program) (o : Option ElemId) (fuel : Nat)
    (t name : String) (declared : Bool) (st : RCState) :
    blacklist_field p o (fuel + 1) t name declared st =
      match type_class p t with
      | none => st
      | some c =>
        let st1 := fieldIterate c (fieldYield o c.cname name declared) st
        if declared then st1
        else
          match c.superclass with
          | none => st1
          | some s => blacklist_field p o fuel s name declared st1 := rfl

/-- Unfolding equation of `blacklist_method` at positive fuel. -/
theorem blacklist_method_succ (p : Program) (o : Option ElemId) (fuel : Nat)
    (t name : String) (params : Option (List String)) (declared : Bool)
    (st : RCState) :
    blacklist_method p o (fuel + 1) t name params declared st =
      match type_class p t with
      | none => st
      | some c =>
        let st1 := methodIterate c (methodYield o c.cname name params declared) st
        if declared then st1
        else
          match c.superclass with
          | none => st1
          | some s => blacklist_method p o fuel s name params declared st1 := rfl

/-- An external class yields no fields. -/
theorem fieldIterate_external (c : DexClassDef) (hc : c.isExternal = true)
    (y : DexFieldDef → RCState → RCState) (st : RCState) :
    fieldIterate c y st = st := by
  simp [fieldIterate, hc]

/-- An external class yields no methods. -/
theorem methodIterate_external (c : DexClassDef) (hc : c.isExternal = true)
    (y : DexMethodDef → RCState → RCState) (st : RCState) :
    methodIterate c y st = st := by
  simp [methodIterate, hc]

/-- The program refuting C1's external-class conjunct: `LB;` is external but
has the non-external superclass `LA;` declaring public static field `x`. -/
def pC1 : Program :=
  { classes :=
      [{ cname := "LB;", superclass := some "LA;", isExternal := true },
        { cname := "LA;", sfields := [{ fname := "x" }] }],
    knownTypes := ["LA;", "LB;"] }

/-- C1, counterexample: calling `blacklist_field` on the external class `LB;`
with `declared_only = false` does not return immediately — it recurses into
the superclass `LA;` and marks `LA;.x` with a REFLECTION keep reason, so the
call both recurses and marks an element. -/
theorem c1_counterexample :
    (blacklist_field pC1 none (walkFuel pC1) "LB;" "x" false initState
        (.fld "LA;" "x")).roots = [(KeepReason.REFLECTION, none)] ∧
      (initState (.fld "LA;" "x")).roots = [] := by
  constructor
  · rfl
  · rfl

/-- C1, amended: when the class is external the member iteration yields
nothing, so no member declared in the class is marked, but with
`declared_only = false` the call still recurses into the superclass with the
same parameters (it does not return immediately); with `declared_only =
true` there is no recursion; and for a non-external class with a superclass
and `declared_only = false`, the call recurses into the superclass with the
same parameters after yielding the declared matches. Both `blacklist_field`
and `blacklist_method` behave this way. -/
theorem c1_blacklist_structure (p : Program) (o : Option ElemId) (fuel : Nat)
    (t name : String) (params : Option (List String)) (declared : Bool)
    (st : RCState) (c : DexClassDef) (h : type_class p t = some c) :
    (c.isExternal = true →
      fieldIterate c (fieldYield o c.cname name declared) st = st ∧
        methodIterate c (methodYield o c.cname name params declared) st = st ∧
        blacklist_field p o (fuel + 1) t name false st =
          (match c.superclass with
           | none => st
           | some s => blacklist_field p o fuel s name false st) ∧
        blacklist_method p o (fuel + 1) t name params false st =
          (match c.superclass with
           | none => st
           | some s => blacklist_method p o fuel s name params false st)) ∧
      (blacklist_field p o (fuel + 1) t name true st =
          fieldIterate c (fieldYield o c.cname name true) st ∧
        blacklist_method p o (fuel + 1) t name params true st =
          methodIterate c (methodYield o c.cname name params true) st) ∧
      (∀ s, c.superclass = some s →
        blacklist_field p o (fuel + 1) t name false st =
          blacklist_field p o fuel s name false
            (fieldIterate c (fieldYield o c.cname name false) st) ∧
          blacklist_method p o (fuel + 1) t name params false st =
            blacklist_method p o fuel s name params false
              (methodIterate c (methodYield o c.cname name params false) st)) := by
  refine ⟨fun hext => ?_, ⟨?_, ?_⟩, fun s hs => ⟨?_, ?_⟩⟩
  · refine ⟨fieldIterate_external c hext _ st,
      methodIterate_external c hext _ st, ?_, ?_⟩
    · rw [blacklist_field_succ]
      simp [h, fieldIterate_external c hext]
    · rw [blacklist_method_succ]
      simp [h, methodIterate_external c hext]
  · rw [blacklist_field_succ]
    simp only [h, if_true]
  · rw [blacklist_method_succ]
    simp only [h, if_true]
  · rw [blacklist_field_succ]
    simp [h, hs]
  · rw [blacklist_method_succ]
    simp [h, hs]

/-- The external class record of `pC1`, as `type_class` resolves it. -/
def cB : DexClassDef :=
  { cname := "LB;", superclass := some "LA;", isExternal := true }

/-- Witness for `c1_blacklist_structure`: on `pC1`, the call on the external
class `LB;` with `declared_only = false` equals the recursive call on the
superclass `LA;` with the unchanged state. -/
theorem c1_blacklist_structure_witness :
    cB.isExternal = true ∧
      blacklist_field pC1 none 3 "LB;" "x" false initState =
        blacklist_field pC1 none 2 "LA;" "x" false initState := by
  refine ⟨rfl, ?_⟩
  have h := (c1_blacklist_structure pC1 none 2 "LB;" "x" none false initState
    cB rfl).1 rfl
  exact h.2.2.1

/-! ## Claim C4: manifest roots -/

/-- C4: for a name that resolves to a class, `mark_manifest_root` performs
exactly a `set_root(MANIFEST)` and a keep-count increment on the class and a
`set_root(MANIFEST)` on every declared constructor (every other flag of the
class and every other element are untouched), so every declared constructor
of a manifest-rooted class carries keep-reason MANIFEST; a name that does
not resolve produces no state change. -/
theorem c4_mark_manifest_root (p : Program) (cn : String) (st : RCState) :
    (maybe_class_from_string p cn = none → mark_manifest_root p cn st = st) ∧
      ∀ c, maybe_class_from_string p cn = some c →
        ((mark_manifest_root p cn st (.cls c.cname)).roots =
            (KeepReason.MANIFEST, none) :: (st (.cls c.cname)).roots ∧
          (mark_manifest_root p cn st (.cls c.cname)).keepCount =
            (st (.cls c.cname)).keepCount + 1 ∧
          (mark_manifest_root p cn st (.cls c.cname)).byType =
            (st (.cls c.cname)).byType ∧
          (mark_manifest_root p cn st (.cls c.cname)).byString =
            (st (.cls c.cname)).byString ∧
          (mark_manifest_root p cn st (.cls c.cname)).byXml =
            (st (.cls c.cname)).byXml ∧
          (mark_manifest_root p cn st (.cls c.cname)).isSerde =
            (st (.cls c.cname)).isSerde ∧
          (mark_manifest_root p cn st (.cls c.cname)).allowObfuscation =
            (st (.cls c.cname)).allowObfuscation) ∧
          (∀ m ∈ get_ctors c,
            (KeepReason.MANIFEST, none) ∈
              (mark_manifest_root p cn st (mthId c.cname m)).roots) ∧
          ∀ e, e ≠ .cls c.cname → (∀ m ∈ get_ctors c, e ≠ mthId c.cname m) →
            mark_manifest_root p cn st e = st e := by
  constructor
  · intro h
    simp [mark_manifest_root, h]
  · intro c hc
    have hcls : ∀ x : RCState,
        (get_ctors c).foldl
            (fun s m => setRoot (mthId c.cname m) .MANIFEST none s) x
            (.cls c.cname) =
          x (.cls c.cname) := by
      intro x
      exact foldl_out _ _ x _ fun m s => upd_ne _ _ s _ (by simp [mthId])
    refine ⟨?_, ?_, ?_⟩
    · have : mark_manifest_root p cn st (.cls c.cname) =
          incKeepCount (.cls c.cname)
            (setRoot (.cls c.cname) .MANIFEST none st) (.cls c.cname) := by
        simp only [mark_manifest_root, hc]
        exact hcls _
      rw [this]
      simp [incKeepCount, setRoot, upd]
    · intro m hm
      simp only [mark_manifest_root, hc]
      refine foldl_estab _ _ _ _ m hm
        (fun r => (KeepReason.MANIFEST, none) ∈ r.roots) ?_ ?_
      · intro b s hs
        by_cases hb : mthId c.cname m = mthId c.cname b
        · rw [hb] at hs ⊢
          rw [setRoot, upd_self]
          exact List.mem_cons_of_mem _ hs
        · rwa [setRoot, upd_ne _ _ _ _ hb]
      · intro s
        rw [setRoot, upd_self]
        exact List.mem_cons_self _ _
    · intro e he hctors
      simp only [mark_manifest_root, hc]
      have h1 : ∀ m ∈ get_ctors c, ∀ s : RCState,
          setRoot (mthId c.cname m) KeepReason.MANIFEST none s e = s e :=
        fun m hm s => upd_ne _ _ s _ (hctors m hm)
      rw [foldl_out_mem (get_ctors c)
        (fun m s => setRoot (mthId c.cname m) KeepReason.MANIFEST none s)
        _ e h1]
      rw [incKeepCount, upd_ne _ _ _ _ he, setRoot, upd_ne _ _ _ _ he]

/-- The manifest-root test class: one constructor and one ordinary method. -/
def pC4 : Program :=
  { classes :=
      [{ cname := "LM;",
          dmethods := [{ mname := "<init>" }, { mname := "foo" }] }],
    knownTypes := ["LM;"] }

/-- Witness for `c4_mark_manifest_root`: on the concrete program the rooted
class's constructor carries keep-reason MANIFEST and an unrelated method is
untouched. -/
theorem c4_mark_manifest_root_witness :
    (KeepReason.MANIFEST, none) ∈
        (mark_manifest_root pC4 "LM;" initState
          (.mth "LM;" "<init>" [])).roots ∧
      mark_manifest_root pC4 "LM;" initState (.mth "LM;" "foo" []) =
        initState (.mth "LM;" "foo" []) := by
  have h := (c4_mark_manifest_root pC4 "LM;" initState).2
    { cname := "LM;", dmethods := [{ mname := "<init>" }, { mname := "foo" }] }
    rfl
  exact ⟨h.2.1 { mname := "<init>" } (by decide),
    h.2.2 (.mth "LM;" "foo" []) (by decide) (by decide)⟩

/-! ## Claim C10: `keep_class_members` examines only the first matching
entry -/

/-- C10: for one class, the entry loop of `keep_class_members` is fully
determined by the first configured entry containing the class's name: that
entry's remainder is processed and every later entry is skipped (the loop
breaks even when the first matching entry contains no static-field name of
the class), and with no matching entry the state is unchanged. -/
theorem c10_keep_mems_first_match (c : DexClassDef) (entries : List String)
    (st : RCState) :
    keep_mems_cls c entries st =
      match entries.find? (fun e => (findSub c.cname.data e.data).isSome) with
      | none => st
      | some e => keepMemsProcessEntry c (remAfter e c.cname) st := by
  induction entries with
  | nil => rfl
  | cons e rest ih =>
    rcases hp : findSub c.cname.data e.data with _ | pos
    · simp only [keep_mems_cls, hp, List.find?_cons, Option.isSome_none]
      exact ih
    · simp only [keep_mems_cls, hp, List.find?_cons, Option.isSome_some,
        remAfter]

/-! ## Claim C8: reflection scanner argument resolution and updater
dispatch -/

/-- Lemma: `dex_string_lookup` at kind `REF_UPDATER` reads argument register 2. -/
theorem dex_string_lookup_ref_updater (p : Program) (mc : MethodCode)
    (i : Nat) (insn : IRInstruction) :
    dex_string_lookup p mc .REF_UPDATER i insn =
      match get_abstract_object mc i (insn.srcs.getD 2 0) with
      | none => none
      | some a => if a.objKind = .STRING then a.dexString else none := rfl

/-- Lemma: `dex_string_lookup` at every non-constructor kind other than
`REF_UPDATER` reads argument register 1. -/
theorem dex_string_lookup_arg1 (p : Program) (mc : MethodCode) (i : Nat)
    (insn : IRInstruction) (rt : ReflectionType)
    (h : rt ∈ ([.GET_FIELD, .GET_DECLARED_FIELD, .GET_METHOD,
        .GET_DECLARED_METHOD, .INT_UPDATER, .LONG_UPDATER] :
        List ReflectionType)) :
    dex_string_lookup p mc rt i insn =
      match get_abstract_object mc i (insn.srcs.getD 1 0) with
      | none => none
      | some a => if a.objKind = .STRING then a.dexString else none := by
  fin_cases h <;> rfl

/-- Unfolding of `reflSiteAction` for an invoke instruction. -/
theorem reflSiteAction_invoke (p : Program) (mc : MethodCode) (i : Nat)
    (insn : IRInstruction) (hinv : insn.isInvoke = true) :
    reflSiteAction p mc i insn =
      match refl_lookup insn.calleeClass insn.calleeName with
      | none => none
      | some rt =>
        match get_abstract_object mc i (insn.srcs.getD 0 0) with
        | none => none
        | some argCls =>
          if argCls.objKind ≠ .CLASS then none
          else
            match dex_string_lookup p mc rt i insn with
            | none => none
            | some name =>
              some (reflDispatch rt argCls.dexType name
                (if rt = .GET_METHOD ∨ rt = .GET_CONSTRUCTOR ∨
                    rt = .GET_DECLARED_METHOD ∨ rt = .GET_DECLARED_CONSTRUCTOR
                then get_method_params mc i
                else none)) := by
  unfold reflSiteAction
  rw [hinv]
  rfl

/-- C8: (1) for the constructor kinds the looked-up name is the interned
`<init>` token, independent of the analysis answers (no register is
consulted); (2) for `REF_UPDATER` the name is read from the abstract value
of argument register 2, and the site's lookup yields the string payload only
when that value's kind is STRING; (3) for every other non-constructor kind
the name is read from argument register 1 in the same way; (4) a site whose
name lookup fails (in particular, whose abstract value is not a STRING) is
skipped; (5) a matched updater site (INT_UPDATER, LONG_UPDATER or
REF_UPDATER) dispatches to `blacklist_field` with `declared_only = true`. -/
theorem c8_reflection_scanner (p : Program) (mc : MethodCode) (i : Nat)
    (insn : IRInstruction) :
    (∀ rt : ReflectionType,
      rt = .GET_CONSTRUCTOR ∨ rt = .GET_DECLARED_CONSTRUCTOR →
        ∀ mc' : MethodCode, ∀ insn' : IRInstruction,
          dex_string_lookup p mc' rt i insn' =
            (if p.knownStrings.contains "<init>" then some "<init>"
              else none)) ∧
      ((∀ a, get_abstract_object mc i (insn.srcs.getD 2 0) = some a →
          dex_string_lookup p mc .REF_UPDATER i insn =
            (if a.objKind = .STRING then a.dexString else none)) ∧
        (get_abstract_object mc i (insn.srcs.getD 2 0) = none →
          dex_string_lookup p mc .REF_UPDATER i insn = none)) ∧
      (∀ rt : ReflectionType,
        rt ∈ ([.GET_FIELD, .GET_DECLARED_FIELD, .GET_METHOD,
            .GET_DECLARED_METHOD, .INT_UPDATER,
            .LONG_UPDATER] : List ReflectionType) →
          (∀ a, get_abstract_object mc i (insn.srcs.getD 1 0) = some a →
            dex_string_lookup p mc rt i insn =
              (if a.objKind = .STRING then a.dexString else none)) ∧
            (get_abstract_object mc i (insn.srcs.getD 1 0) = none →
              dex_string_lookup p mc rt i insn = none)) ∧
      (∀ rt : ReflectionType, refl_lookup insn.calleeClass insn.calleeName = some rt →
        dex_string_lookup p mc rt i insn = none →
          reflSiteAction p mc i insn = none) ∧
      ∀ rt : ReflectionType,
        rt ∈ ([.INT_UPDATER, .LONG_UPDATER, .REF_UPDATER] :
            List ReflectionType) →
          insn.isInvoke = true →
            refl_lookup insn.calleeClass insn.calleeName = some rt →
              ∀ k, get_abstract_object mc i (insn.srcs.getD 0 0) = some k →
                k.objKind = .CLASS →
                  ∀ nm, dex_string_lookup p mc rt i insn = some nm →
                    reflSiteAction p mc i insn =
                      some (.fld k.dexType nm true) := by
  refine ⟨?_, ⟨?_, ?_⟩, ?_, ?_, ?_⟩
  · rintro rt (rfl | rfl) mc' insn' <;> rfl
  · intro a ha
    rw [dex_string_lookup_ref_updater, ha]
  · intro ha
    rw [dex_string_lookup_ref_updater, ha]
  · intro rt hrt
    exact ⟨fun a ha => by rw [dex_string_lookup_arg1 p mc i insn rt hrt, ha],
      fun ha => by rw [dex_string_lookup_arg1 p mc i insn rt hrt, ha]⟩
  · intro rt hrt hnone
    rcases hinv : insn.isInvoke with _ | _
    · unfold reflSiteAction
      rw [hinv]
      rfl
    · rw [reflSiteAction_invoke p mc i insn hinv, hrt]
      rcases hac : get_abstract_object mc i (insn.srcs.getD 0 0) with _ | k
      · rfl
      · by_cases hk : k.objKind = .CLASS
        · simp [hk, hnone]
        · simp [hk]
  · intro rt hrt hinv hlook k hk hkind nm hnm
    have hdisp : ∀ pr, reflDispatch rt k.dexType nm pr =
        .fld k.dexType nm true := by
      fin_cases hrt <;> exact fun pr => rfl
    rw [reflSiteAction_invoke p mc i insn hinv, hlook, hk]
    simp [hkind, hnm, hdisp]

/-- A concrete `AtomicReferenceFieldUpdater.newUpdater` call site. -/
def insnC8 : IRInstruction :=
  { calleeClass := "Ljava/util/concurrent/atomic/AtomicReferenceFieldUpdater;",
    calleeName := "newUpdater", srcs := [5, 6, 7] }

/-- Analysis answers for `insnC8`: register 5 holds a CLASS abstract object,
register 7 a STRING abstract object. -/
def mcC8 : MethodCode :=
  { insns := [insnC8],
    absObjects :=
      [((0, 5), { objKind := .CLASS, dexType := some "LA;" }),
        ((0, 7), { objKind := .STRING, dexString := some "x" })] }

/-- Witness for `c8_reflection_scanner`: the concrete REF_UPDATER site
resolves its name from register 7 (argument register 2) and dispatches to
`blacklist_field` with `declared_only = true`. -/
theorem c8_reflection_scanner_witness :
    reflSiteAction { knownStrings := ["<init>"] } mcC8 0 insnC8 =
      some (.fld (some "LA;") "x" true) := by
  exact (c8_reflection_scanner { knownStrings := ["<init>"] } mcC8 0
      insnC8).2.2.2.2 .REF_UPDATER (by decide) rfl rfl
    { objKind := .CLASS, dexType := some "LA;" } rfl rfl "x" rfl

/-! ## Claim C5: click-handler marking -/

/-- The xml flag after a `setByXml`. -/
theorem byXml_setByXml (e : ElemId) (st : RCState) (x : ElemId) :
    ((setByXml e st) x).byXml = ((st x).byXml || decide (x = e)) := by
  by_cases h : x = e <;> simp [setByXml, upd, h]

/-- Lemma: `matches_onclick_method` holds exactly for a single-`View`-parameter
method with a bound name. -/
theorem matches_onclick_iff (m : DexMethodDef) (vals : List String) :
    matches_onclick_method m vals = true ↔
      (m.margs = ["Landroid/view/View;"] ∧ vals.contains m.mname = true) := by
  rcases hm : m.margs with _ | ⟨t, _ | ⟨u, l⟩⟩
  · simp [matches_onclick_method, hm]
  · by_cases ht : t = "Landroid/view/View;" <;>
      simp [matches_onclick_method, hm, ht]
  · simp [matches_onclick_method, hm]

/-- C5: when the click-handler pass succeeds, (a) an empty bound-name set
marks nothing, and (b) for every child class of the UI base type that is not
external, a declared virtual method whose xml flag was clear is marked
`referenced_by_resource_xml` if and only if its parameter list is exactly the
single framework view type and its name is among the bound values — in
particular a bound name with a different parameter list is not marked. -/
theorem c5_onclick_marking (p : Program) (vals : List String)
    (st st' : RCState)
    (hrun : mark_onclick_attributes_reachable p vals st = some st') :
    (vals = [] → st' = st) ∧
      ∀ t ∈ childrenOf p "Landroid/content/Context;",
        ∀ c, type_class p t = some c → c.isExternal = false →
          ∀ m ∈ c.vmethods, (st (mthId c.cname m)).byXml = false →
            ((st' (mthId c.cname m)).byXml = true ↔
              (m.margs = ["Landroid/view/View;"] ∧
                vals.contains m.mname = true)) := by
  by_cases hemp : vals.isEmpty
  · have hst : st' = st := by
      rw [mark_onclick_attributes_reachable, if_pos hemp] at hrun
      exact (Option.some_injective _ hrun).symm
    subst hst
    refine ⟨fun _ => rfl, ?_⟩
    intro t ht c hc hext m hm hx
    rw [hx]
    have hv : vals = [] := List.isEmpty_iff.mp hemp
    subst hv
    simp
  · refine ⟨fun hv => absurd (by rw [hv]; rfl) hemp, ?_⟩
    by_cases hctx : p.knownTypes.contains "Landroid/content/Context;"
    · have hst' : st' =
          (childrenOf p "Landroid/content/Context;").foldl
            (fun s t =>
              match type_class p t with
              | none => s
              | some c =>
                if c.isExternal then s
                else
                  c.vmethods.foldl
                    (fun s2 m =>
                      if matches_onclick_method m vals then
                        setByXml (mthId c.cname m) s2
                      else s2)
                    s)
            st := by
        rw [mark_onclick_attributes_reachable, if_neg hemp, hctx,
          if_neg (by decide : ¬((!true : Bool) = true))] at hrun
        exact (Option.some_injective _ hrun).symm
      intro t ht c hc hext m hm hx
      have hinner : ∀ (cn : String) (l : List DexMethodDef) (s : RCState)
          (x : ElemId),
          ((l.foldl
              (fun s2 m' =>
                if matches_onclick_method m' vals then
                  setByXml (mthId cn m') s2
                else s2)
              s) x).byXml =
            ((s x).byXml ||
              l.any (fun m' => matches_onclick_method m' vals &&
                decide (x = mthId cn m'))) := by
        intro cn l s x
        refine foldl_proj_char l _ (fun r => r.byXml)
          (fun m' x' => matches_onclick_method m' vals &&
            decide (x' = mthId cn m')) ?_ s x
        intro m' s' x'
        by_cases hmm : matches_onclick_method m' vals
        · simp only [if_pos hmm, hmm, Bool.true_and]
          exact byXml_setByXml _ s' x'
        · simp [if_neg hmm, hmm]
      have houter : ∀ (x : ElemId),
          (((childrenOf p "Landroid/content/Context;").foldl
              (fun s t' =>
                match type_class p t' with
                | none => s
                | some c' =>
                  if c'.isExternal then s
                  else
                    c'.vmethods.foldl
                      (fun s2 m' =>
                        if matches_onclick_method m' vals then
                          setByXml (mthId c'.cname m') s2
                        else s2)
                      s)
              st) x).byXml =
            ((st x).byXml ||
              (childrenOf p "Landroid/content/Context;").any
                (fun t' =>
                  match type_class p t' with
                  | none => false
                  | some c' =>
                    !c'.isExternal &&
                      c'.vmethods.any
                        (fun m' => matches_onclick_method m' vals &&
                          decide (x = mthId c'.cname m')))) := by
        intro x
        refine foldl_proj_char (childrenOf p "Landroid/content/Context;")
          (fun t' s =>
            match type_class p t' with
            | none => s
            | some c' =>
              if c'.isExternal then s
              else
                c'.vmethods.foldl
                  (fun s2 m' =>
                    if matches_onclick_method m' vals then
                      setByXml (mthId c'.cname m') s2
                    else s2)
                  s)
          (fun r => r.byXml)
          (fun t' x' =>
            match type_class p t' with
            | none => false
            | some c' =>
              !c'.isExternal &&
                c'.vmethods.any
                  (fun m' => matches_onclick_method m' vals &&
                    decide (x' = mthId c'.cname m')))
          ?_ st x
        intro t' s' x'
        rcases htc : type_class p t' with _ | c'
        · simp [htc]
        · rcases hex : c'.isExternal with _ | _
          · simp only [htc, hex, Bool.false_eq_true, if_false, Bool.not_false,
              Bool.true_and]
            exact hinner c'.cname c'.vmethods s' x'
          · simp [htc, hex]
      rw [hst', houter, hx, Bool.false_or]
      constructor
      · intro hany
        rcases List.any_eq_true.mp hany with ⟨t', ht', hq⟩
        rcases htc' : type_class p t' with _ | c'
        · rw [htc'] at hq
          simp at hq
        · rw [htc'] at hq
          simp only [Bool.and_eq_true] at hq
          obtain ⟨_, hq2⟩ := hq
          rcases List.any_eq_true.mp hq2 with ⟨m', hm', hq3⟩
          simp only [Bool.and_eq_true] at hq3
          obtain ⟨hmatch, hid⟩ := hq3
          have hid' : mthId c.cname m = mthId c'.cname m' := of_decide_eq_true hid
          have hnames : m'.mname = m.mname ∧ m'.margs = m.margs := by
            simp only [mthId, ElemId.mth.injEq] at hid'
            exact ⟨hid'.2.1.symm, hid'.2.2.symm⟩
          have hmatchm : matches_onclick_method m vals = true := by
            rcases matches_onclick_iff m' vals |>.mp hmatch with ⟨ha, hb⟩
            exact (matches_onclick_iff m vals).mpr
              ⟨hnames.2 ▸ ha, hnames.1 ▸ hb⟩
          exact (matches_onclick_iff m vals).mp hmatchm
      · intro hmb
        refine List.any_eq_true.mpr ⟨t, ht, ?_⟩
        rw [hc]
        show (!c.isExternal &&
          c.vmethods.any (fun m' => matches_onclick_method m' vals &&
            decide (mthId c.cname m = mthId c.cname m'))) = true
        rw [hext]
        simp only [Bool.not_false, Bool.true_and]
        refine List.any_eq_true.mpr ⟨m, hm, ?_⟩
        rw [(matches_onclick_iff m vals).mpr hmb]
        simp
    · rw [mark_onclick_attributes_reachable, if_neg hemp,
        if_pos (by simp [Bool.not_eq_true] at hctx ⊢; exact hctx)] at hrun
      exact Option.noConfusion hrun

/-- The click-handler virtual method `doThing(View)`. -/
def doThingView : DexMethodDef :=
  { mname := "doThing", margs := ["Landroid/view/View;"] }

/-- Its sibling `doThing(String)`. -/
def doThingString : DexMethodDef :=
  { mname := "doThing", margs := ["Ljava/lang/String;"] }

/-- A non-external subclass of the UI base type declaring both methods. -/
def cV : DexClassDef :=
  { cname := "LV;", superclass := some "Landroid/content/Context;",
    vmethods := [doThingView, doThingString] }

/-- The click-handler test program. -/
def pC5 : Program :=
  { classes := [cV],
    knownTypes := ["LV;", "Landroid/content/Context;"] }

/-- The state after the click-handler pass of the witness program. -/
def stC5 : RCState :=
  (mark_onclick_attributes_reachable pC5 ["doThing"] initState).getD initState

/-- Witness for `c5_onclick_marking`: on the concrete program, the bound name
`doThing` marks `LV;.doThing(View)` and not `LV;.doThing(String)`. -/
theorem c5_onclick_marking_witness :
    (stC5 (.mth "LV;" "doThing" ["Landroid/view/View;"])).byXml = true ∧
      (stC5 (.mth "LV;" "doThing" ["Ljava/lang/String;"])).byXml = false := by
  have h := (c5_onclick_marking pC5 ["doThing"] initState stC5 rfl).2 "LV;"
    (by decide) cV rfl rfl
  constructor
  · exact (h doThingView (by decide) rfl).mpr ⟨rfl, rfl⟩
  · have h2 := h doThingString (by decide) rfl
    rcases hb : (stC5 (.mth "LV;" "doThing" ["Ljava/lang/String;"])).byXml with
      _ | _
    · rfl
    · have := (h2.mp hb).1
      exact absurd this (by decide)

/-! ## Claim C6: unresolved names during seeding -/

/-- The seeding input refuting C6: the application directory is configured,
a layout binds a click-handler value, and the hardcoded UI base type
`Landroid/content/Context;` does not resolve. -/
def envC6 : Env :=
  { cfg := { apkDir := "app" },
    attributeValues := [("android:onClick", "doThing")] }

/-- C6, counterexample: one unresolved class name consulted during seeding is
fatal rather than logged-and-skipped: when any handler value is bound and the
UI base type does not resolve, the click-handler pass hits `always_assert`
(embedded as `none`) and the whole seeding phase aborts. -/
theorem c6_counterexample :
    init_reachable_classes envC6 initState = none ∧
      mark_onclick_attributes_reachable envC6.prog ["doThing"] initState =
        none := by
  exact ⟨rfl, rfl⟩

/-- C6, amended: every unresolved name consulted during seeding is skipped
with no state change and never aborts the phase — an unresolved configured
annotation name is dropped from the merged annotation set, an unresolved
manifest class name leaves the state unchanged, an unresolved layout class
name leaves the state unchanged, and an unresolved native-library class name
is skipped — with one exception: the hardcoded UI base type of the
click-handler pass, whose failed resolution under a nonempty handler-value
set is a fatal assertion. -/
theorem c6_unresolved_names (p : Program) (baseline cfgAnnos : List String)
    (cn : String) (rest : List String) (vals : List String) (st : RCState) :
    (load_annotation_types p baseline cfgAnnos =
        baseline ++ cfgAnnos.filter (p.knownTypes.contains ·)) ∧
      (maybe_class_from_string p cn = none →
        mark_manifest_root p cn st = st ∧ mark_reachable_by_xml p cn st = st) ∧
      (p.knownTypes.contains cn = false →
        native_lib_pass p (cn :: rest) st = native_lib_pass p rest st) ∧
      (vals ≠ [] → p.knownTypes.contains "Landroid/content/Context;" = false →
        mark_onclick_attributes_reachable p vals st = none) := by
  refine ⟨?_, ?_, ?_, ?_⟩
  · suffices h : ∀ (annos acc : List String),
        annos.foldl
            (fun a x => if p.knownTypes.contains x then a ++ [x] else a) acc =
          acc ++ annos.filter (p.knownTypes.contains ·) by
      exact h cfgAnnos baseline
    intro annos
    induction annos with
    | nil => intro acc; simp
    | cons a l ih =>
      intro acc
      by_cases ha : p.knownTypes.contains a
      · rw [List.foldl_cons, if_pos ha, ih (acc ++ [a]), List.filter_cons,
          if_pos ha]
        simp
      · rw [List.foldl_cons, if_neg ha, ih acc, List.filter_cons, if_neg ha]
  · intro h
    exact ⟨by simp [mark_manifest_root, h], by simp [mark_reachable_by_xml, h]⟩
  · intro h
    simp only [native_lib_pass, List.foldl_cons, h, Bool.false_eq_true,
      if_false]
  · intro hv hc
    rw [mark_onclick_attributes_reachable,
      if_neg (by simp [List.isEmpty_iff, hv]), hc]
    rfl

/-- Witness for `c6_unresolved_names` at concrete unresolved names. -/
theorem c6_unresolved_names_witness :
    (load_annotation_types { knownTypes := ["LKeep;"] } ["LBase;"]
        ["LKeep;", "LGone;"] =
      ["LBase;"] ++
        (["LKeep;", "LGone;"] : List String).filter
          (({ knownTypes := ["LKeep;"] } : Program).knownTypes.contains ·)) ∧
      mark_manifest_root { knownTypes := ["LKeep;"] } "LGone;" initState =
        initState ∧
      mark_onclick_attributes_reachable { knownTypes := ["LKeep;"] }
        ["doThing"] initState = none := by
  have h := c6_unresolved_names { knownTypes := ["LKeep;"] } ["LBase;"]
    ["LKeep;", "LGone;"] "LGone;" [] ["doThing"] initState
  exact ⟨h.1, (h.2.1 rfl).1, h.2.2.2 (by decide) rfl⟩

/-! ## Claim C7: the xml recompute entrypoint -/

/-- A state whose xml flags are all false but whose other flags agree with
`st`: the start state of a fresh layout-seeder run. -/
def zeroXml (st : RCState) : RCState := fun e => { st e with byXml := false }

/-- All components of an element's state other than the xml flag. -/
def nonXml (r : RState) :
    Bool × Bool × Bool × List (KeepReason × Option ElemId) × Nat × Bool :=
  (r.byType, r.byString, r.isSerde, r.roots, r.keepCount, r.allowObfuscation)

/-- A projection preserved by every step of a fold is preserved by the
fold. -/
theorem foldl_proj_out {α : Type} {β : Type} (proj : RState → β)
    (l : List α) (g : α → RCState → RCState)
    (h : ∀ a s x, proj (g a s x) = proj (s x)) (st : RCState) (x : ElemId) :
    proj ((l.foldl (fun s a => g a s) st) x) = proj (st x) := by
  induction l generalizing st with
  | nil => rfl
  | cons a l ih =>
    simp only [List.foldl_cons]
    rw [ih (g a st)]
    exact h a st x

/-- The xml flag after an `unsetByXml`. -/
theorem byXml_unsetByXml (e : ElemId) (st : RCState) (x : ElemId) :
    ((unsetByXml e st) x).byXml = ((st x).byXml && !(decide (x = e))) := by
  by_cases h : x = e <;> simp [unsetByXml, upd, h]

/-- Lemma: `unsetByXml` changes no non-xml component. -/
theorem nonXml_unsetByXml (e : ElemId) (st : RCState) (x : ElemId) :
    nonXml ((unsetByXml e st) x) = nonXml (st x) := by
  by_cases h : x = e <;> simp [unsetByXml, upd, h, nonXml]

/-- The element identities of a class and all its declared members, in the
order the clearing pass visits them. -/
def elemIds (c : DexClassDef) : List ElemId :=
  [ElemId.cls c.cname] ++ c.dmethods.map (mthId c.cname) ++
    c.vmethods.map (mthId c.cname) ++ c.ifields.map (fldId c.cname) ++
    c.sfields.map (fldId c.cname)

/-- Whether the clearing pass for class `c` clears element `x`. -/
def clearQ (c : DexClassDef) (x : ElemId) : Bool :=
  decide (x = .cls c.cname) ||
    c.dmethods.any (fun m => decide (x = mthId c.cname m)) ||
    c.vmethods.any (fun m => decide (x = mthId c.cname m)) ||
    c.ifields.any (fun f => decide (x = fldId c.cname f)) ||
    c.sfields.any (fun f => decide (x = fldId c.cname f))

/-- xml flag after a fold of `unsetByXml` over identities. -/
theorem foldl_unset_char {α : Type} (idf : α → ElemId) (l : List α)
    (st : RCState) (x : ElemId) :
    ((l.foldl (fun s a => unsetByXml (idf a) s) st) x).byXml =
      ((st x).byXml && !(l.any (fun a => decide (x = idf a)))) :=
  foldl_proj_char_clear l (fun a s => unsetByXml (idf a) s)
    (fun r => r.byXml) (fun a x' => decide (x' = idf a))
    (fun a s x' => byXml_unsetByXml (idf a) s x') st x

/-- xml flag after the clearing step of one class. -/
theorem clearXmlClass_byXml (c : DexClassDef) (st : RCState) (x : ElemId) :
    ((clearXmlClass c st) x).byXml = ((st x).byXml && !(clearQ c x)) := by
  simp only [clearXmlClass]
  rw [foldl_unset_char (fldId c.cname) c.sfields,
    foldl_unset_char (fldId c.cname) c.ifields,
    foldl_unset_char (mthId c.cname) c.vmethods,
    foldl_unset_char (mthId c.cname) c.dmethods, byXml_unsetByXml]
  simp only [clearQ, Bool.not_or, Bool.and_assoc]

/-- Non-xml components after the clearing step of one class. -/
theorem nonXml_clearXmlClass (c : DexClassDef) (st : RCState) (x : ElemId) :
    nonXml ((clearXmlClass c st) x) = nonXml (st x) := by
  simp only [clearXmlClass]
  rw [foldl_proj_out nonXml c.sfields _
      (fun f s x' => nonXml_unsetByXml _ s x'),
    foldl_proj_out nonXml c.ifields _
      (fun f s x' => nonXml_unsetByXml _ s x'),
    foldl_proj_out nonXml c.vmethods _
      (fun m s x' => nonXml_unsetByXml _ s x'),
    foldl_proj_out nonXml c.dmethods _
      (fun m s x' => nonXml_unsetByXml _ s x'),
    nonXml_unsetByXml]

/-- xml flag after the whole clearing pass. -/
theorem clearXmlPass_byXml (p : Program) (st : RCState) (x : ElemId) :
    ((clearXmlPass p st) x).byXml =
      ((st x).byXml && !((scope p).any (fun c => clearQ c x))) :=
  foldl_proj_char_clear (scope p) _ _ _
    (fun c s x' => clearXmlClass_byXml c s x') st x

/-- Non-xml components after the whole clearing pass. -/
theorem nonXml_clearXmlPass (p : Program) (st : RCState) (x : ElemId) :
    nonXml ((clearXmlPass p st) x) = nonXml (st x) :=
  foldl_proj_out nonXml (scope p) _
    (fun c s x' => nonXml_clearXmlClass c s x') st x

/-- Membership in `elemIds` makes `clearQ` true. -/
theorem elemIds_clearQ (c : DexClassDef) (x : ElemId) (h : x ∈ elemIds c) :
    clearQ c x = true := by
  simp only [elemIds, List.append_assoc, List.mem_append, List.mem_singleton,
    List.mem_map] at h
  simp only [clearQ, Bool.or_eq_true, List.any_eq_true, decide_eq_true_eq]
  rcases h with h | ⟨m, hm, hx⟩ | ⟨m, hm, hx⟩ | ⟨f, hf, hx⟩ | ⟨f, hf, hx⟩
  · exact Or.inl (Or.inl (Or.inl (Or.inl h)))
  · exact Or.inl (Or.inl (Or.inl (Or.inr ⟨m, hm, hx.symm⟩)))
  · exact Or.inl (Or.inl (Or.inr ⟨m, hm, hx.symm⟩))
  · exact Or.inl (Or.inr ⟨f, hf, hx.symm⟩)
  · exact Or.inr ⟨f, hf, hx.symm⟩

/-- The xml flag after a `setByXml` fold (layout classes / constructors). -/
theorem foldl_setByXml_char {α : Type} (idf : α → ElemId) (l : List α)
    (st : RCState) (x : ElemId) :
    ((l.foldl (fun s a => setByXml (idf a) s) st) x).byXml =
      ((st x).byXml || l.any (fun a => decide (x = idf a))) :=
  foldl_proj_char l (fun a s => setByXml (idf a) s)
    (fun r => r.byXml) (fun a x' => decide (x' = idf a))
    (fun a s x' => byXml_setByXml (idf a) s x') st x

/-- Whether `mark_reachable_by_xml p cn` marks element `x`. -/
def layoutMarkQ (p : Program) (cn : String) (x : ElemId) : Bool :=
  match maybe_class_from_string p cn with
  | none => false
  | some c =>
    decide (x = .cls c.cname) ||
      (get_ctors c).any (fun m => decide (x = mthId c.cname m))

/-- The xml flag after `mark_reachable_by_xml`. -/
theorem mark_reachable_by_xml_byXml (p : Program) (cn : String)
    (st : RCState) (x : ElemId) :
    ((mark_reachable_by_xml p cn st) x).byXml =
      ((st x).byXml || layoutMarkQ p cn x) := by
  rcases h : maybe_class_from_string p cn with _ | c
  · simp [mark_reachable_by_xml, layoutMarkQ, h]
  · simp only [mark_reachable_by_xml, layoutMarkQ, h]
    rw [foldl_setByXml_char (mthId c.cname) (get_ctors c), byXml_setByXml,
      Bool.or_assoc]

/-- Whether the click-handler marking for child `t` marks element `x`. -/
def onclickChildQ (p : Program) (vals : List String) (x : ElemId)
    (t : String) : Bool :=
  match type_class p t with
  | none => false
  | some c =>
    !c.isExternal &&
      c.vmethods.any
        (fun m => matches_onclick_method m vals && decide (x = mthId c.cname m))

/-- Whether the click-handler pass marks element `x`. -/
def onclickMarkQ (p : Program) (vals : List String) (x : ElemId) : Bool :=
  if vals.isEmpty then false
  else
    (childrenOf p "Landroid/content/Context;").any (onclickChildQ p vals x)

/-- The xml flag after a successful click-handler pass. -/
theorem mark_onclick_byXml (p : Program) (vals : List String)
    (st st' : RCState)
    (h : mark_onclick_attributes_reachable p vals st = some st')
    (x : ElemId) :
    (st' x).byXml = ((st x).byXml || onclickMarkQ p vals x) := by
  by_cases hemp : vals.isEmpty
  · rw [mark_onclick_attributes_reachable, if_pos hemp] at h
    rw [← Option.some_injective _ h]
    simp [onclickMarkQ, hemp]
  · by_cases hctx : p.knownTypes.contains "Landroid/content/Context;"
    · rw [mark_onclick_attributes_reachable, if_neg hemp, hctx,
        if_neg (by decide : ¬((!true : Bool) = true))] at h
      rw [← Option.some_injective _ h]
      have hinner : ∀ (cn : String) (l : List DexMethodDef) (s : RCState)
          (x' : ElemId),
          ((l.foldl
              (fun s2 m' =>
                if matches_onclick_method m' vals then
                  setByXml (mthId cn m') s2
                else s2)
              s) x').byXml =
            ((s x').byXml ||
              l.any (fun m' => matches_onclick_method m' vals &&
                decide (x' = mthId cn m'))) := by
        intro cn l s x'
        refine foldl_proj_char l _ (fun r => r.byXml)
          (fun m' x2 => matches_onclick_method m' vals &&
            decide (x2 = mthId cn m')) ?_ s x'
        intro m' s' x2
        by_cases hmm : matches_onclick_method m' vals
        · simp only [if_pos hmm, hmm, Bool.true_and]
          exact byXml_setByXml _ s' x2
        · simp [if_neg hmm, hmm]
      have houter :
          (((childrenOf p "Landroid/content/Context;").foldl
              (fun s t =>
                match type_class p t with
                | none => s
                | some c =>
                  if c.isExternal then s
                  else
                    c.vmethods.foldl
                      (fun s2 m =>
                        if matches_onclick_method m vals then
                          setByXml (mthId c.cname m) s2
                        else s2)
                      s)
              st) x).byXml =
            ((st x).byXml ||
              (childrenOf p "Landroid/content/Context;").any
                (onclickChildQ p vals x)) := by
        refine foldl_proj_char (childrenOf p "Landroid/content/Context;")
          (fun t s =>
            match type_class p t with
            | none => s
            | some c =>
              if c.isExternal then s
              else
                c.vmethods.foldl
                  (fun s2 m =>
                    if matches_onclick_method m vals then
                      setByXml (mthId c.cname m) s2
                    else s2)
                  s)
          (fun r => r.byXml) (fun t x' => onclickChildQ p vals x' t) ?_ st x
        intro t s' x'
        rcases htc : type_class p t with _ | c
        · simp [onclickChildQ, htc]
        · rcases hex : c.isExternal with _ | _
          · simp only [onclickChildQ, htc, hex, Bool.false_eq_true, if_false,
              Bool.not_false, Bool.true_and]
            exact hinner c.cname c.vmethods s' x'
          · simp [onclickChildQ, htc, hex]
      rw [houter, onclickMarkQ, if_neg hemp]
    · rw [mark_onclick_attributes_reachable, if_neg hemp,
        if_pos (by simp [Bool.not_eq_true] at hctx ⊢; exact hctx)] at h
      exact Option.noConfusion h

/-- Whether a run of the Resource Layout Seeder on the given inputs marks
element `x` — a function of the inputs only, independent of the starting
state. -/
def xmlMarks (p : Program) (layout_classes : List String)
    (attribute_values : List (String × String)) (x : ElemId) : Bool :=
  layout_classes.any (fun cn => layoutMarkQ p cn x) ||
    onclickMarkQ p (multimap_values_to_set attribute_values ONCLICK_ATTRIBUTE)
      x

/-- The xml flag after a successful run of the layout seeder: the old flag
joined with the state-independent mark set. -/
theorem analyze_xml_char (p : Program) (layout_classes : List String)
    (attribute_values : List (String × String)) (st st' : RCState)
    (h : analyze_reachable_from_xml_layouts p layout_classes attribute_values
        st = some st')
    (x : ElemId) :
    (st' x).byXml = ((st x).byXml || xmlMarks p layout_classes
      attribute_values x) := by
  rw [analyze_reachable_from_xml_layouts] at h
  have hlay : ∀ (s : RCState) (x' : ElemId),
      ((layout_classes.foldl (fun s2 cn => mark_reachable_by_xml p cn s2)
          s) x').byXml =
        ((s x').byXml ||
          layout_classes.any (fun cn => layoutMarkQ p cn x')) :=
    fun s x' =>
      foldl_proj_char layout_classes (fun cn s2 => mark_reachable_by_xml p cn s2)
        (fun r => r.byXml) (fun cn x2 => layoutMarkQ p cn x2)
        (fun cn s2 x2 => mark_reachable_by_xml_byXml p cn s2 x2) s x'
  rw [mark_onclick_byXml _ _ _ _ h x, hlay st x, xmlMarks, Bool.or_assoc]

/-- The program of the C7 counterexample: one external class in the table,
so the scope is empty. -/
def pE : Program := { classes := [{ cname := "LE;", isExternal := true }] }

/-- A starting state carrying a stale xml flag on the external class (as a
previous layout run that named it would leave behind). -/
def stE : RCState := setByXml (.cls "LE;") initState

/-- C7, counterexample: with empty layout inputs, the recompute entrypoint
leaves the external class's stale `referenced_by_resource_xml` flag set —
its clearing pass walks only the (empty) scope — while a fresh run of the
layout seeder from an all-false xml state leaves it clear, so the two flag
sets differ. -/
theorem c7_counterexample :
    recompute_reachable_from_xml_layouts pE [] [] stE = some stE ∧
      analyze_reachable_from_xml_layouts pE [] [] (zeroXml stE) =
        some (zeroXml stE) ∧
      (stE (.cls "LE;")).byXml = true ∧
      ((zeroXml stE) (.cls "LE;")).byXml = false := by
  exact ⟨rfl, rfl, rfl, rfl⟩

/-- C7, amended: the clearing pass of `recompute_reachable_from_xml_layouts`
modifies no flag other than `referenced_by_resource_xml`; and for every
element of a class in the scope (the class itself and each declared member),
the xml flag after the recompute entrypoint equals the flag a fresh run of
the layout seeder on the same inputs, started from an all-false xml flag
state, produces. (Stale xml flags on elements of classes outside the scope —
external classes — are not cleared, which is what the counterexample
exhibits.) -/
theorem c7_recompute_xml (p : Program) (layout_classes : List String)
    (attribute_values : List (String × String)) (st st1 st2 : RCState)
    (h1 : recompute_reachable_from_xml_layouts p layout_classes
        attribute_values st = some st1)
    (h2 : analyze_reachable_from_xml_layouts p layout_classes
        attribute_values (zeroXml st) = some st2) :
    (∀ e, nonXml (clearXmlPass p st e) = nonXml (st e)) ∧
      ∀ c ∈ scope p, ∀ e ∈ elemIds c, (st1 e).byXml = (st2 e).byXml := by
  refine ⟨fun e => nonXml_clearXmlPass p st e, ?_⟩
  intro c hc e he
  rw [recompute_reachable_from_xml_layouts] at h1
  rw [analyze_xml_char _ _ _ _ _ h1 e, analyze_xml_char _ _ _ _ _ h2 e]
  rw [clearXmlPass_byXml]
  have hcl : (scope p).any (fun c' => clearQ c' e) = true :=
    List.any_eq_true.mpr ⟨c, hc, elemIds_clearQ c e he⟩
  rw [hcl]
  simp [zeroXml]

/-- A scope class for the C7 witness. -/
def cW : DexClassDef :=
  { cname := "LW;", dmethods := [{ mname := "<init>" }] }

/-- The witness program: one internal class, resolvable from layouts. -/
def pW : Program := { classes := [cW], knownTypes := ["LW;"] }

/-- The state after the recompute entrypoint of the witness run. -/
def stW1 : RCState :=
  (recompute_reachable_from_xml_layouts pW ["LW;"] []
      (setByString (.cls "LW;") initState)).getD initState

/-- The state after the fresh layout-seeder run of the witness. -/
def stW2 : RCState :=
  (analyze_reachable_from_xml_layouts pW ["LW;"] []
      (zeroXml (setByString (.cls "LW;") initState))).getD initState

/-- Witness for `c7_recompute_xml`: on the concrete program the recomputed
and freshly computed xml flags agree on the scope class and its constructor,
and the clearing pass left the class's string flag alone. -/
theorem c7_recompute_xml_witness :
    nonXml (clearXmlPass pW (setByString (.cls "LW;") initState)
        (.cls "LW;")) =
      nonXml ((setByString (.cls "LW;") initState) (.cls "LW;")) ∧
      (stW1 (.cls "LW;")).byXml = (stW2 (.cls "LW;")).byXml ∧
      (stW1 (.mth "LW;" "<init>" [])).byXml =
        (stW2 (.mth "LW;" "<init>" [])).byXml := by
  have h := c7_recompute_xml pW ["LW;"] []
    (setByString (.cls "LW;") initState) stW1 stW2 rfl rfl
  exact ⟨h.1 (.cls "LW;"),
    h.2 cW (by decide) (.cls "LW;") (by decide),
    h.2 cW (by decide) (.mth "LW;" "<init>" []) (by decide)⟩

/-! ## Claim C3: the string-reachability member invariant

Infrastructure: how each seeder phase treats the `referenced_by_string`
flag. -/

theorem byString_setByType (e : ElemId) (st : RCState) (x : ElemId) :
    ((setByType e st) x).byString = (st x).byString := by
  by_cases h : x = e <;> simp [setByType, upd, h]

theorem byString_setByXml (e : ElemId) (st : RCState) (x : ElemId) :
    ((setByXml e st) x).byString = (st x).byString := by
  by_cases h : x = e <;> simp [setByXml, upd, h]

theorem byString_unsetByXml (e : ElemId) (st : RCState) (x : ElemId) :
    ((unsetByXml e st) x).byString = (st x).byString := by
  by_cases h : x = e <;> simp [unsetByXml, upd, h]

theorem byString_setIsSerde (e : ElemId) (st : RCState) (x : ElemId) :
    ((setIsSerde e st) x).byString = (st x).byString := by
  by_cases h : x = e <;> simp [setIsSerde, upd, h]

theorem byString_setRoot (e : ElemId) (r : KeepReason) (o : Option ElemId)
    (st : RCState) (x : ElemId) :
    ((setRoot e r o st) x).byString = (st x).byString := by
  by_cases h : x = e <;> simp [setRoot, upd, h]

theorem byString_incKeepCount (e : ElemId) (st : RCState) (x : ElemId) :
    ((incKeepCount e st) x).byString = (st x).byString := by
  by_cases h : x = e <;> simp [incKeepCount, upd, h]

theorem byString_unsetAllowObfuscation (e : ElemId) (st : RCState)
    (x : ElemId) :
    ((unsetAllowObfuscation e st) x).byString = (st x).byString := by
  by_cases h : x = e <;> simp [unsetAllowObfuscation, upd, h]

theorem byString_setByString (e : ElemId) (st : RCState) (x : ElemId) :
    ((setByString e st) x).byString =
      ((st x).byString || decide (x = e)) := by
  by_cases h : x = e <;> simp [setByString, upd, h]

/-- The string flag after a fold of `setByString` over identities. -/
theorem foldl_setByString_char {α : Type} (idf : α → ElemId) (l : List α)
    (st : RCState) (x : ElemId) :
    ((l.foldl (fun s a => setByString (idf a) s) st) x).byString =
      ((st x).byString || l.any (fun a => decide (x = idf a))) :=
  foldl_proj_char l (fun a s => setByString (idf a) s)
    (fun r => r.byString) (fun a x' => decide (x' = idf a))
    (fun a s x' => byString_setByString (idf a) s x') st x

/-- Whether `mark_reachable_by_classname_cls c` marks element `x`. -/
def clsStrQ (c : DexClassDef) (x : ElemId) : Bool :=
  decide (x = .cls c.cname) ||
    c.dmethods.any (fun m => decide (x = mthId c.cname m)) ||
    c.vmethods.any (fun m => decide (x = mthId c.cname m)) ||
    c.sfields.any (fun f => decide (x = fldId c.cname f)) ||
    c.ifields.any (fun f => decide (x = fldId c.cname f))

/-- The string flag after `mark_reachable_by_classname_cls`: the class and
every declared member get the flag. -/
theorem mark_cls_byString (c : DexClassDef) (st : RCState) (x : ElemId) :
    ((mark_reachable_by_classname_cls c st) x).byString =
      ((st x).byString || clsStrQ c x) := by
  simp only [mark_reachable_by_classname_cls]
  rw [foldl_setByString_char (fldId c.cname) c.ifields,
    foldl_setByString_char (fldId c.cname) c.sfields,
    foldl_setByString_char (mthId c.cname) c.vmethods,
    foldl_setByString_char (mthId c.cname) c.dmethods, byString_setByString]
  simp only [clsStrQ, Bool.or_assoc]

/-- Lemma: `type_class` results are table members. -/
theorem type_class_mem (p : Program) (t : String) (c : DexClassDef)
    (h : type_class p t = some c) : c ∈ p.classes :=
  List.mem_of_find?_eq_some h

/-- Lemma: `type_class` finds a class with the queried name. -/
theorem type_class_name (p : Program) (t : String) (c : DexClassDef)
    (h : type_class p t = some c) : c.cname = t := by
  have := List.find?_some h
  simpa using this

/-- Lemma: `type_class_internal` results are non-external table members. -/
theorem type_class_internal_mem (p : Program) (t : String) (c : DexClassDef)
    (h : type_class_internal p t = some c) :
    c ∈ p.classes ∧ c.isExternal = false := by
  rw [type_class_internal] at h
  rcases htc : type_class p t with _ | c'
  · rw [htc] at h; cases h
  · rw [htc] at h
    have h' : (if c'.isExternal = true then none else some c') = some c := h
    by_cases hex : c'.isExternal
    · rw [if_pos hex] at h'
      exact Option.noConfusion h'
    · rw [if_neg hex] at h'
      have hcc : c' = c := Option.some_injective _ h'
      subst hcc
      exact ⟨type_class_mem p t c' htc, by simpa using hex⟩

/-- Scope classes are table members. -/
theorem scope_mem (p : Program) (c : DexClassDef) (h : c ∈ scope p) :
    c ∈ p.classes :=
  List.mem_of_mem_filter h

/-- A fold each of whose member steps is the identity is the identity. -/
theorem foldl_id_mem {α : Type} (l : List α) (g : α → RCState → RCState)
    (st : RCState) (h : ∀ a ∈ l, ∀ s, g a s = s) :
    l.foldl (fun s a => g a s) st = st := by
  induction l generalizing st with
  | nil => rfl
  | cons a l ih =>
    simp only [List.foldl_cons]
    rw [h a (List.mem_cons_self a l) st]
    exact ih st fun b hb s => h b (List.mem_cons_of_mem a hb) s

/-- A conditional application of a string-flag-preserving marker preserves
the string flag. -/
theorem byString_cond {α : Type} (P : α → Bool) (f : α → RCState → RCState)
    (hf : ∀ a s x, ((f a s) x).byString = (s x).byString) (a : α)
    (s : RCState) (x : ElemId) :
    ((if P a then f a s else s) x).byString = (s x).byString := by
  by_cases hb : P a
  · rw [if_pos hb]; exact hf a s x
  · rw [if_neg hb]

/-- The Annotation Propagator never touches the string flag. -/
theorem keep_annotated_byString (p : Program) (keep : List String)
    (st : RCState) (x : ElemId) :
    ((keep_annotated_classes p keep st) x).byString = (st x).byString := by
  have hstep : ∀ (c : DexClassDef) (s : RCState) (x' : ElemId),
      ((c.ifields.foldl
          (fun s2 f => if anno_set_contains f.fannos keep then
            mark_only_reachable_directly (fldId c.cname f) s2 else s2)
          (c.sfields.foldl
            (fun s2 f => if anno_set_contains f.fannos keep then
              mark_only_reachable_directly (fldId c.cname f) s2 else s2)
            (c.vmethods.foldl
              (fun s2 m => if anno_set_contains m.mannos keep then
                mark_only_reachable_directly (mthId c.cname m) s2 else s2)
              (c.dmethods.foldl
                (fun s2 m => if anno_set_contains m.mannos keep then
                  mark_only_reachable_directly (mthId c.cname m) s2 else s2)
                (if anno_set_contains c.cannos keep then
                  mark_only_reachable_directly (.cls c.cname) s
                else s))))) x').byString = (s x').byString := by
    intro c s x'
    have hFld : ∀ (l : List DexFieldDef) (s2 : RCState) (x2 : ElemId),
        ((l.foldl
            (fun s3 f => if anno_set_contains f.fannos keep then
              mark_only_reachable_directly (fldId c.cname f) s3 else s3)
            s2) x2).byString = (s2 x2).byString :=
      fun l s2 x2 =>
        foldl_proj_out (fun r => r.byString) l _
          (byString_cond (fun f => anno_set_contains f.fannos keep)
            (fun f => mark_only_reachable_directly (fldId c.cname f))
            (fun f s3 x3 => byString_setByType (fldId c.cname f) s3 x3))
          s2 x2
    have hMth : ∀ (l : List DexMethodDef) (s2 : RCState) (x2 : ElemId),
        ((l.foldl
            (fun s3 m => if anno_set_contains m.mannos keep then
              mark_only_reachable_directly (mthId c.cname m) s3 else s3)
            s2) x2).byString = (s2 x2).byString :=
      fun l s2 x2 =>
        foldl_proj_out (fun r => r.byString) l _
          (byString_cond (fun m => anno_set_contains m.mannos keep)
            (fun m => mark_only_reachable_directly (mthId c.cname m))
            (fun m s3 x3 => byString_setByType (mthId c.cname m) s3 x3))
          s2 x2
    rw [hFld c.ifields, hFld c.sfields, hMth c.vmethods, hMth c.dmethods]
    exact byString_cond (fun _ : Unit => anno_set_contains c.cannos keep)
      (fun _ => mark_only_reachable_directly (.cls c.cname))
      (fun _ s3 x3 => byString_setByType (.cls c.cname) s3 x3) () s x'
  exact foldl_proj_out (fun r => r.byString) (scope p) _ hstep st x

/-- The static-field loop of a matched `keep_class_members` entry never
touches the string flag. -/
theorem keepMemsProcessEntry_byString (c : DexClassDef) (rem : List Char)
    (s : RCState) (x : ElemId) :
    ((keepMemsProcessEntry c rem s) x).byString = (s x).byString := by
  refine foldl_proj_out (fun r => r.byString) c.sfields _ ?_ s x
  intro f s2 x2
  by_cases hb : (findSub f.fname.data rem).isSome
  · rw [if_pos hb]
    exact (byString_setByType (ElemId.cls c.cname) _ x2).trans
      (byString_setByType (fldId c.cname f) s2 x2)
  · rw [if_neg hb]

/-- The entry loop of `keep_class_members` never touches the string flag. -/
theorem keep_mems_cls_byString (c : DexClassDef) (entries : List String)
    (s : RCState) (x : ElemId) :
    ((keep_mems_cls c entries s) x).byString = (s x).byString := by
  induction entries with
  | nil => rfl
  | cons e rest ih =>
    rcases hp : findSub c.cname.data e.data with _ | pos
    · simp only [keep_mems_cls, hp]
      exact ih
    · simp only [keep_mems_cls, hp]
      exact keepMemsProcessEntry_byString c _ s x

/-- Lemma: `keep_class_members` never touches the string flag. -/
theorem keep_class_members_byString (p : Program) (entries : List String)
    (st : RCState) (x : ElemId) :
    ((keep_class_members p entries st) x).byString = (st x).byString :=
  foldl_proj_out (fun r => r.byString) (scope p)
    (fun c s => keep_mems_cls c entries s)
    (fun c s x' => keep_mems_cls_byString c entries s x') st x

/-- Whether `keep_methods` marks element `x`. -/
def kmQ (p : Program) (ms : List String) (x : ElemId) : Bool :=
  (scope p).any
    (fun c =>
      c.dmethods.any
          (fun m => ms.contains m.mname && decide (x = mthId c.cname m)) ||
        c.vmethods.any
          (fun m => ms.contains m.mname && decide (x = mthId c.cname m)))

/-- The string flag after `keep_methods`: the old flag joined with the
configured-name method marks. -/
theorem keep_methods_byString (p : Program) (ms : List String)
    (st : RCState) (x : ElemId) :
    ((keep_methods p ms st) x).byString = ((st x).byString || kmQ p ms x) := by
  have hin : ∀ (cn : String) (l : List DexMethodDef) (s : RCState)
      (x' : ElemId),
      ((l.foldl
          (fun s2 m => if ms.contains m.mname then
            setByString (mthId cn m) s2 else s2)
          s) x').byString =
        ((s x').byString ||
          l.any (fun m => ms.contains m.mname &&
            decide (x' = mthId cn m))) := by
    intro cn l s x'
    refine foldl_proj_char l _ (fun r => r.byString)
      (fun m x2 => ms.contains m.mname && decide (x2 = mthId cn m)) ?_ s x'
    intro m s2 x2
    by_cases hb : ms.contains m.mname
    · simp only [if_pos hb, hb, Bool.true_and]
      exact byString_setByString (mthId cn m) s2 x2
    · have hb' : ms.contains m.mname = false := by
        cases hcc : ms.contains m.mname
        · rfl
        · exact absurd hcc hb
      rw [if_neg hb]
      show (s2 x2).byString =
        ((s2 x2).byString || (ms.contains m.mname && decide (x2 = mthId cn m)))
      rw [hb']
      simp
  refine foldl_proj_char (scope p)
    (fun c s =>
      c.vmethods.foldl
        (fun s2 m => if ms.contains m.mname then
          setByString (mthId c.cname m) s2 else s2)
        (c.dmethods.foldl
          (fun s2 m => if ms.contains m.mname then
            setByString (mthId c.cname m) s2 else s2)
          s))
    (fun r => r.byString)
    (fun c x' =>
      c.dmethods.any
          (fun m => ms.contains m.mname && decide (x' = mthId c.cname m)) ||
        c.vmethods.any
          (fun m => ms.contains m.mname && decide (x' = mthId c.cname m)))
    ?_ st x
  intro c s x'
  exact (hin c.cname c.vmethods
      (c.dmethods.foldl
        (fun s2 m => if ms.contains m.mname then
          setByString (mthId c.cname m) s2 else s2)
        s)
      x').trans (by rw [hin c.cname c.dmethods s x', Bool.or_assoc])

/-- Lemma: `keep_methods` never marks a class identity. -/
theorem kmQ_cls (p : Program) (ms : List String) (cn : String) :
    kmQ p ms (.cls cn) = false := by
  simp only [kmQ, List.any_eq_false]
  intro c _
  simp [mthId]

/-- Lemma: `mark_manifest_root` never touches the string flag. -/
theorem mark_manifest_root_byString (p : Program) (cn : String)
    (s : RCState) (x : ElemId) :
    ((mark_manifest_root p cn s) x).byString = (s x).byString := by
  rcases h : maybe_class_from_string p cn with _ | c
  · simp [mark_manifest_root, h]
  · simp only [mark_manifest_root, h]
    rw [foldl_proj_out (fun r => r.byString) (get_ctors c)
        (fun m s2 => setRoot (mthId c.cname m) .MANIFEST none s2)
        (fun m s2 x2 => byString_setRoot (mthId c.cname m) _ _ s2 x2),
      byString_incKeepCount, byString_setRoot]

/-- Lemma: `handleComponentTag` never touches the string flag. -/
theorem handleComponentTag_byString (p : Program)
    (prune : List ComponentTagKind) (tg : ComponentTagInfo) (s : RCState)
    (x : ElemId) :
    ((handleComponentTag p prune tg s) x).byString = (s x).byString := by
  rcases htag : tg.tag with _ | _ | _ | _ | _ <;>
    simp only [handleComponentTag, htag]
  · by_cases hcond : tg.isExported || tg.hasIntentFilters ||
        !(prune.contains ComponentTagKind.Activity)
    · rw [if_pos hcond]
      exact mark_manifest_root_byString p _ s x
    · rw [if_neg hcond]
      rcases h : maybe_class_from_string p tg.classname with _ | c
      · rfl
      · exact (byString_unsetAllowObfuscation _ _ x).trans
          (byString_incKeepCount _ s x)
  · by_cases hcond : tg.isExported || tg.hasIntentFilters ||
        !(prune.contains ComponentTagKind.ActivityAlias)
    · rw [if_pos hcond]
      exact mark_manifest_root_byString p _ s x
    · rw [if_neg hcond]
      rcases h : maybe_class_from_string p tg.classname with _ | c
      · rfl
      · exact (byString_unsetAllowObfuscation _ _ x).trans
          (byString_incKeepCount _ s x)
  · exact mark_manifest_root_byString p _ s x
  · exact mark_manifest_root_byString p _ s x
  · rw [foldl_proj_out (fun r => r.byString) tg.authorityClasses
        (fun cn s2 => mark_manifest_root p cn s2)
        (fun cn s2 x2 => mark_manifest_root_byString p cn s2 x2),
      mark_manifest_root_byString]

/-- The Manifest Seeder never touches the string flag. -/
theorem analyze_manifest_byString (p : Program) (info : ManifestClassInfo)
    (prune_strs : List String) (st st' : RCState)
    (h : analyze_reachable_from_manifest p info prune_strs st = some st')
    (x : ElemId) : (st' x).byString = (st x).byString := by
  rw [analyze_reachable_from_manifest] at h
  rcases hpr : prune_strs.mapM tagOfString with _ | prune
  · rw [hpr] at h; exact Option.noConfusion h
  · rw [hpr] at h
    have hst : st' = info.componentTags.foldl
        (fun s tg => handleComponentTag p prune tg s)
        (info.instrumentationClasses.foldl
          (fun s cn => mark_manifest_root p cn s)
          (info.applicationClasses.foldl
            (fun s cn => mark_manifest_root p cn s) st)) :=
      (Option.some_injective _ h).symm
    rw [hst]
    rw [foldl_proj_out (fun r => r.byString) info.componentTags
      (fun tg s => handleComponentTag p prune tg s)
      (fun tg s x' => handleComponentTag_byString p prune tg s x')]
    rw [foldl_proj_out (fun r => r.byString) info.instrumentationClasses
      (fun cn s => mark_manifest_root p cn s)
      (fun cn s x' => mark_manifest_root_byString p cn s x')]
    rw [foldl_proj_out (fun r => r.byString) info.applicationClasses
      (fun cn s => mark_manifest_root p cn s)
      (fun cn s x' => mark_manifest_root_byString p cn s x')]

/-- Lemma: `mark_reachable_by_xml` never touches the string flag. -/
theorem mark_reachable_by_xml_byString (p : Program) (cn : String)
    (s : RCState) (x : ElemId) :
    ((mark_reachable_by_xml p cn s) x).byString = (s x).byString := by
  rcases h : maybe_class_from_string p cn with _ | c
  · simp [mark_reachable_by_xml, h]
  · simp only [mark_reachable_by_xml, h]
    rw [foldl_proj_out (fun r => r.byString) (get_ctors c)
        (fun m s2 => setByXml (mthId c.cname m) s2)
        (fun m s2 x2 => byString_setByXml (mthId c.cname m) s2 x2),
      byString_setByXml]

/-- The click-handler pass never touches the string flag. -/
theorem mark_onclick_byString (p : Program) (vals : List String)
    (st st' : RCState)
    (h : mark_onclick_attributes_reachable p vals st = some st')
    (x : ElemId) : (st' x).byString = (st x).byString := by
  by_cases hemp : vals.isEmpty
  · rw [mark_onclick_attributes_reachable, if_pos hemp] at h
    rw [← Option.some_injective _ h]
  · by_cases hctx : p.knownTypes.contains "Landroid/content/Context;"
    · rw [mark_onclick_attributes_reachable, if_neg hemp, hctx,
        if_neg (by decide : ¬((!true : Bool) = true))] at h
      rw [← Option.some_injective _ h]
      refine foldl_proj_out (fun r => r.byString)
        (childrenOf p "Landroid/content/Context;")
        (fun t s =>
          match type_class p t with
          | none => s
          | some c =>
            if c.isExternal then s
            else
              c.vmethods.foldl
                (fun s2 m =>
                  if matches_onclick_method m vals then
                    setByXml (mthId c.cname m) s2
                  else s2)
                s)
        ?_ st x
      intro t s x'
      rcases htc : type_class p t with _ | c
      · simp [htc]
      · rcases hex : c.isExternal with _ | _
        · simp only [htc, hex, Bool.false_eq_true, if_false]
          exact foldl_proj_out (fun r => r.byString) c.vmethods _
            (byString_cond (fun m => matches_onclick_method m vals)
              (fun m => setByXml (mthId c.cname m))
              (fun m s2 x2 => byString_setByXml (mthId c.cname m) s2 x2))
            s x'
        · simp [htc, hex]
    · rw [mark_onclick_attributes_reachable, if_neg hemp,
        if_pos (by simp [Bool.not_eq_true] at hctx ⊢; exact hctx)] at h
      exact Option.noConfusion h

/-- The Resource Layout Seeder never touches the string flag. -/
theorem analyze_xml_byString (p : Program) (layout_classes : List String)
    (attribute_values : List (String × String)) (st st' : RCState)
    (h : analyze_reachable_from_xml_layouts p layout_classes attribute_values
        st = some st')
    (x : ElemId) : (st' x).byString = (st x).byString := by
  rw [analyze_reachable_from_xml_layouts] at h
  rw [mark_onclick_byString _ _ _ _ h x]
  exact foldl_proj_out (fun r => r.byString) layout_classes
    (fun cn s => mark_reachable_by_xml p cn s)
    (fun cn s x' => mark_reachable_by_xml_byString p cn s x') st x

/-- The `blacklist_field` yield never touches the string flag. -/
theorem fieldYield_byString (o : Option ElemId) (cn name : String)
    (declared : Bool) (f : DexFieldDef) (s : RCState) (x : ElemId) :
    ((fieldYield o cn name declared f s) x).byString = (s x).byString := by
  rw [fieldYield]
  by_cases h1 : f.fname ≠ name
  · rw [if_pos h1]
  · rw [if_neg h1]
    by_cases h2 : !f.fpublic && !declared
    · rw [if_pos h2]
    · rw [if_neg h2]
      exact byString_setRoot _ _ _ s x

/-- The `blacklist_method` yield never touches the string flag. -/
theorem methodYield_byString (o : Option ElemId) (cn name : String)
    (params : Option (List String)) (declared : Bool) (m : DexMethodDef)
    (s : RCState) (x : ElemId) :
    ((methodYield o cn name params declared m s) x).byString =
      (s x).byString := by
  rw [methodYield]
  by_cases h1 : m.mname ≠ name
  · rw [if_pos h1]
  · rw [if_neg h1]
    by_cases h2 : params.isSome && params ≠ some m.margs
    · rw [if_pos h2]
    · rw [if_neg h2]
      by_cases h3 : !m.mpublic && !declared
      · rw [if_pos h3]
      · rw [if_neg h3]
        exact byString_setRoot _ _ _ s x

/-- A field iteration with a string-flag-preserving yield preserves the
string flag. -/
theorem fieldIterate_byString (c : DexClassDef)
    (y : DexFieldDef → RCState → RCState)
    (hy : ∀ f s x, ((y f s) x).byString = (s x).byString) (s : RCState)
    (x : ElemId) : ((fieldIterate c y s) x).byString = (s x).byString := by
  rw [fieldIterate]
  by_cases hext : c.isExternal
  · rw [if_pos hext]
  · rw [if_neg hext]
    exact (foldl_proj_out (fun r => r.byString) c.ifields y hy _ x).trans
      (foldl_proj_out (fun r => r.byString) c.sfields y hy s x)

/-- A method iteration with a string-flag-preserving yield preserves the
string flag. -/
theorem methodIterate_byString (c : DexClassDef)
    (y : DexMethodDef → RCState → RCState)
    (hy : ∀ m s x, ((y m s) x).byString = (s x).byString) (s : RCState)
    (x : ElemId) : ((methodIterate c y s) x).byString = (s x).byString := by
  rw [methodIterate]
  by_cases hext : c.isExternal
  · rw [if_pos hext]
  · rw [if_neg hext]
    exact (foldl_proj_out (fun r => r.byString) c.vmethods y hy _ x).trans
      (foldl_proj_out (fun r => r.byString) c.dmethods y hy s x)

/-- Lemma: `blacklist_field` never touches the string flag. -/
theorem blacklist_field_byString (p : Program) (o : Option ElemId) :
    ∀ (fuel : Nat) (t name : String) (declared : Bool) (s : RCState)
      (x : ElemId),
      ((blacklist_field p o fuel t name declared s) x).byString =
        (s x).byString := by
  intro fuel
  induction fuel with
  | zero => intro t name declared s x; rfl
  | succ n ih =>
    intro t name declared s x
    rw [blacklist_field_succ]
    rcases htc : type_class p t with _ | c
    · rfl
    · simp only
      by_cases hd : declared
      · rw [if_pos hd]
        exact fieldIterate_byString c _
          (fun f s2 x2 => fieldYield_byString o c.cname name declared f s2 x2)
          s x
      · rw [if_neg hd]
        rcases hsup : c.superclass with _ | sup
        · exact fieldIterate_byString c _
            (fun f s2 x2 =>
              fieldYield_byString o c.cname name declared f s2 x2)
            s x
        · exact (ih sup name declared _ x).trans
            (fieldIterate_byString c _
              (fun f s2 x2 =>
                fieldYield_byString o c.cname name declared f s2 x2)
              s x)

/-- Lemma: `blacklist_method` never touches the string flag. -/
theorem blacklist_method_byString (p : Program) (o : Option ElemId) :
    ∀ (fuel : Nat) (t name : String) (params : Option (List String))
      (declared : Bool) (s : RCState) (x : ElemId),
      ((blacklist_method p o fuel t name params declared s) x).byString =
        (s x).byString := by
  intro fuel
  induction fuel with
  | zero => intro t name params declared s x; rfl
  | succ n ih =>
    intro t name params declared s x
    rw [blacklist_method_succ]
    rcases htc : type_class p t with _ | c
    · rfl
    · simp only
      by_cases hd : declared
      · rw [if_pos hd]
        exact methodIterate_byString c _
          (fun m s2 x2 =>
            methodYield_byString o c.cname name params declared m s2 x2)
          s x
      · rw [if_neg hd]
        rcases hsup : c.superclass with _ | sup
        · exact methodIterate_byString c _
            (fun m s2 x2 =>
              methodYield_byString o c.cname name params declared m s2 x2)
            s x
        · exact (ih sup name params declared _ x).trans
            (methodIterate_byString c _
              (fun m s2 x2 =>
                methodYield_byString o c.cname name params declared m s2 x2)
              s x)

/-- A dispatched reflection action never touches the string flag. -/
theorem applyReflAction_byString (p : Program) (o : Option ElemId)
    (act : ReflAction) (s : RCState) (x : ElemId) :
    ((applyReflAction p o act s) x).byString = (s x).byString := by
  rcases act with ⟨ty, name, declared⟩ | ⟨ty, name, params, declared⟩
  · rcases ty with _ | t
    · rfl
    · exact blacklist_field_byString p o _ t name declared s x
  · rcases ty with _ | t
    · rfl
    · exact blacklist_method_byString p o _ t name params declared s x

/-- The per-method reflection walk never touches the string flag. -/
theorem analyze_reflection_method_byString (p : Program) (cn : String)
    (m : DexMethodDef) (s : RCState) (x : ElemId) :
    ((analyze_reflection_method p cn m s) x).byString = (s x).byString := by
  rw [analyze_reflection_method]
  rcases hc : m.code with _ | mc
  · rfl
  · refine foldl_proj_out (fun r => r.byString) mc.insns.enum
      (fun ix s2 =>
        match reflSiteAction p mc ix.1 ix.2 with
        | none => s2
        | some act => applyReflAction p (some (mthId cn m)) act s2)
      ?_ s x
    intro ix s2 x2
    rcases ha : reflSiteAction p mc ix.1 ix.2 with _ | act
    · simp [ha]
    · simp only [ha]
      exact applyReflAction_byString p _ act s2 x2

/-- The Reflection Scanner never touches the string flag. -/
theorem analyze_reflection_byString (p : Program) (st : RCState)
    (x : ElemId) :
    ((analyze_reflection p st) x).byString = (st x).byString := by
  refine foldl_proj_out (fun r => r.byString) (scope p)
    (fun c s =>
      (c.dmethods ++ c.vmethods).foldl
        (fun s2 m => analyze_reflection_method p c.cname m s2) s)
    ?_ st x
  intro c s x'
  exact foldl_proj_out (fun r => r.byString) (c.dmethods ++ c.vmethods)
    (fun m s2 => analyze_reflection_method p c.cname m s2)
    (fun m s2 x2 => analyze_reflection_method_byString p c.cname m s2 x2)
    s x'

/-- The serializable chain never touches the string flag. -/
theorem analyze_serializable_byString (p : Program) (st : RCState)
    (x : ElemId) :
    ((analyze_serializable p st) x).byString = (st x).byString := by
  rw [analyze_serializable]
  by_cases hk : !(p.knownTypes.contains "Ljava/io/Serializable;")
  · rw [if_pos hk]
  · rw [if_neg hk]
    refine foldl_proj_out (fun r => r.byString)
      (implementorsOf p "Ljava/io/Serializable;") _ ?_ st x
    intro childName s x'
    rcases h1 : type_class p childName with _ | child_cls
    · rfl
    · show ((match child_cls.superclass with
          | none => s
          | some child_super_type =>
            match type_class p child_super_type with
            | none => s
            | some child_supercls =>
              if child_supercls.isExternal then s
              else
                if (implementorsOf p
                    "Ljava/io/Serializable;").contains child_super_type
                then s
                else
                  List.foldl
                    (fun (s2 : RCState) (m : DexMethodDef) =>
                      if m.mname = "<init>" && m.margs.isEmpty then
                        setRoot (mthId child_supercls.cname m)
                          .SERIALIZABLE none s2
                      else s2)
                    s child_supercls.dmethods) x').byString =
        (s x').byString
      rcases h2 : child_cls.superclass with _ | sup
      · rfl
      · show ((match type_class p sup with
            | none => s
            | some child_supercls =>
              if child_supercls.isExternal then s
              else
                if (implementorsOf p "Ljava/io/Serializable;").contains sup
                then s
                else
                  List.foldl
                    (fun (s2 : RCState) (m : DexMethodDef) =>
                      if m.mname = "<init>" && m.margs.isEmpty then
                        setRoot (mthId child_supercls.cname m)
                          .SERIALIZABLE none s2
                      else s2)
                    s child_supercls.dmethods) x').byString =
          (s x').byString
        rcases h3 : type_class p sup with _ | supc
        · rfl
        · show ((if supc.isExternal then s
              else
                if (implementorsOf p "Ljava/io/Serializable;").contains sup
                then s
                else
                  List.foldl
                    (fun (s2 : RCState) (m : DexMethodDef) =>
                      if m.mname = "<init>" && m.margs.isEmpty then
                        setRoot (mthId supc.cname m) .SERIALIZABLE none s2
                      else s2)
                    s supc.dmethods) x').byString = (s x').byString
          by_cases h4 : supc.isExternal
          · rw [if_pos h4]
          · rw [if_neg h4]
            by_cases h5 :
                (implementorsOf p "Ljava/io/Serializable;").contains sup
            · rw [if_pos h5]
            · rw [if_neg h5]
              refine foldl_proj_out (fun r => r.byString) supc.dmethods
                (fun m s2 =>
                  if m.mname = "<init>" && m.margs.isEmpty then
                    setRoot (mthId supc.cname m) .SERIALIZABLE none s2
                  else s2) ?_ s x'
              intro mm s2 x2
              show ((if mm.mname = "<init>" && mm.margs.isEmpty then
                    setRoot (mthId supc.cname mm) .SERIALIZABLE none s2
                  else s2) x2).byString = (s2 x2).byString
              by_cases h6 : mm.mname = "<init>" && mm.margs.isEmpty
              · rw [if_pos h6]
                exact byString_setRoot _ _ _ s2 x2
              · rw [if_neg h6]

/-- The serde superclass marker never touches the string flag. -/
theorem json_serde_byString (p : Program) (supercls_names : List String)
    (st : RCState) (x : ElemId) :
    ((reachable_for_json_serde p supercls_names st) x).byString =
      (st x).byString := by
  rw [reachable_for_json_serde]
  by_cases hk : (supercls_names.filter (p.knownTypes.contains ·)).isEmpty
  · rw [if_pos hk]
  · rw [if_neg hk]
    refine foldl_proj_out (fun r => r.byString)
      (supercls_names.filter (p.knownTypes.contains ·)) _ ?_ st x
    intro sup s x'
    refine foldl_proj_out (fun r => r.byString) (childrenOf p sup) _ ?_ s x'
    intro t s2 x2
    rcases ht : type_class p t with _ | c
    · simp [ht]
    · simp only [ht]
      exact byString_setIsSerde (.cls c.cname) s2 x2

/-- With no native method in scope, the native-method code walk is the
identity. -/
theorem native_walk_id (p : Program)
    (hnat : ∀ c ∈ scope p, ∀ m ∈ c.dmethods ++ c.vmethods,
      m.mnative = false)
    (st : RCState) : recompute_classes_reachable_from_code p st = st := by
  rw [recompute_classes_reachable_from_code]
  refine foldl_id_mem (scope p) _ st ?_
  intro c hc s
  refine foldl_id_mem (c.dmethods ++ c.vmethods) _ s ?_
  intro m hm s2
  rw [hnat c hc m hm]
  rfl

/-- The member invariant of claim C3: every class whose string flag is set
has the string flag on all its declared methods and fields. -/
def StrInv (p : Program) (st : RCState) : Prop :=
  ∀ c ∈ p.classes, (st (.cls c.cname)).byString = true →
    (∀ m ∈ c.dmethods ++ c.vmethods,
      (st (mthId c.cname m)).byString = true) ∧
      ∀ f ∈ c.sfields ++ c.ifields, (st (fldId c.cname f)).byString = true

/-- A transformation that does not touch the string flag preserves the
invariant. -/
theorem StrInv_of_pres (p : Program) (st : RCState) (g : RCState → RCState)
    (hg : ∀ x, ((g st) x).byString = (st x).byString) (h : StrInv p st) :
    StrInv p (g st) := by
  intro c hc hflag
  rw [hg] at hflag
  obtain ⟨hm, hf⟩ := h c hc hflag
  exact ⟨fun m hm' => by rw [hg]; exact hm m hm',
    fun f hf' => by rw [hg]; exact hf f hf'⟩

/-- A transformation that leaves class flags alone and only raises member
flags preserves the invariant. -/
theorem StrInv_step (p : Program) (st : RCState) (g : RCState → RCState)
    (hcls : ∀ cn, ((g st) (.cls cn)).byString = (st (.cls cn)).byString)
    (hmono : ∀ x, (st x).byString = true → ((g st) x).byString = true)
    (h : StrInv p st) : StrInv p (g st) := by
  intro c hc hflag
  rw [hcls] at hflag
  obtain ⟨hm, hf⟩ := h c hc hflag
  exact ⟨fun m hm' => hmono _ (hm m hm'), fun f hf' => hmono _ (hf f hf')⟩

/-- Marking a class by classname (class and all members) preserves the
invariant, given distinct class names. -/
theorem StrInv_mark_cls (p : Program) (st : RCState) (c : DexClassDef)
    (hnd : (p.classes.map (fun c' => c'.cname)).Nodup) (hc : c ∈ p.classes)
    (h : StrInv p st) :
    StrInv p (mark_reachable_by_classname_cls c st) := by
  intro c' hc' hflag
  by_cases hname : c'.cname = c.cname
  · have hcc : c' = c := List.inj_on_of_nodup_map hnd hc' hc hname
    subst hcc
    constructor
    · intro m hm
      rw [mark_cls_byString]
      have hq : clsStrQ c' (mthId c'.cname m) = true := by
        simp only [clsStrQ, Bool.or_eq_true, List.any_eq_true,
          decide_eq_true_eq]
        rcases List.mem_append.mp hm with h1 | h1
        · exact Or.inl (Or.inl (Or.inl (Or.inr ⟨m, h1, rfl⟩)))
        · exact Or.inl (Or.inl (Or.inr ⟨m, h1, rfl⟩))
      rw [hq, Bool.or_true]
    · intro f hf
      rw [mark_cls_byString]
      have hq : clsStrQ c' (fldId c'.cname f) = true := by
        simp only [clsStrQ, Bool.or_eq_true, List.any_eq_true,
          decide_eq_true_eq]
        rcases List.mem_append.mp hf with h1 | h1
        · exact Or.inl (Or.inr ⟨f, h1, rfl⟩)
        · exact Or.inr ⟨f, h1, rfl⟩
      rw [hq, Bool.or_true]
  · have hq : clsStrQ c (.cls c'.cname) = false := by
      simp [clsStrQ, mthId, fldId, hname]
    rw [mark_cls_byString, hq, Bool.or_false] at hflag
    obtain ⟨hm, hf⟩ := h c' hc' hflag
    constructor
    · intro m hm'
      rw [mark_cls_byString, hm m hm', Bool.true_or]
    · intro f hf'
      rw [mark_cls_byString, hf f hf', Bool.true_or]

/-- Marking by type (internal resolution) preserves the invariant. -/
theorem StrInv_mark_type (p : Program) (st : RCState) (t : String)
    (hnd : (p.classes.map (fun c' => c'.cname)).Nodup) (h : StrInv p st) :
    StrInv p (mark_reachable_by_classname_type p t st) := by
  rw [mark_reachable_by_classname_type]
  rcases hi : type_class_internal p t with _ | c
  · exact h
  · exact StrInv_mark_cls p st c hnd (type_class_internal_mem p t c hi).1 h

/-- A state predicate preserved by each step of a fold is preserved by the
fold. -/
theorem foldl_pres_prop {α : Type} (P : RCState → Prop) (l : List α)
    (g : α → RCState → RCState) (h : ∀ a ∈ l, ∀ s, P s → P (g a s))
    (st : RCState) (hst : P st) : P (l.foldl (fun s a => g a s) st) := by
  induction l generalizing st with
  | nil => exact hst
  | cons a l ih =>
    simp only [List.foldl_cons]
    exact ih (fun b hb s hs => h b (List.mem_cons_of_mem a hb) s hs)
      (g a st) (h a (List.mem_cons_self a l) st hst)

/-- The native-library classname pass preserves the invariant. -/
theorem StrInv_native_lib (p : Program) (ns : List String) (st : RCState)
    (hnd : (p.classes.map (fun c' => c'.cname)).Nodup) (h : StrInv p st) :
    StrInv p (native_lib_pass p ns st) := by
  rw [native_lib_pass]
  refine foldl_pres_prop (StrInv p) ns _ ?_ st h
  intro cn _ s hs
  by_cases hk : p.knownTypes.contains cn
  · rw [if_pos hk]
    exact StrInv_mark_type p s cn hnd hs
  · rw [if_neg hk]
    exact hs

/-- The reflected-packages passes preserve the invariant. -/
theorem StrInv_refl_pkg (p : Program) (names : List String) (st : RCState)
    (hnd : (p.classes.map (fun c' => c'.cname)).Nodup) (h : StrInv p st) :
    StrInv p (reflectedPackagesPass p names st) := by
  rw [reflectedPackagesPass]
  suffices hgen : ∀ (l : List DexClassDef), (∀ c ∈ l, c ∈ p.classes) →
      ∀ (acc : List String × RCState), StrInv p acc.2 →
        StrInv p ((l.foldl
          (fun acc c =>
            if in_reflected_pkg p acc.1 (walkFuel p) (some c) then
              (c.cname :: acc.1, mark_reachable_by_classname_cls c acc.2)
            else acc)
          acc).2) by
    exact hgen (scope p) (fun c hc => scope_mem p c hc) _ h
  intro l
  induction l with
  | nil => intro _ acc hacc; exact hacc
  | cons c l ih =>
    intro hmem acc hacc
    simp only [List.foldl_cons]
    refine ih (fun c' hc' => hmem c' (List.mem_cons_of_mem c hc')) _ ?_
    by_cases hin : in_reflected_pkg p acc.1 (walkFuel p) (some c)
    · rw [if_pos hin]
      exact StrInv_mark_cls p acc.2 c hnd
        (hmem c (List.mem_cons_self c l)) hacc
    · rw [if_neg hin]
      exact hacc

/-- Every single seeder phase preserves the invariant, given distinct class
names and no native methods in scope. -/
theorem runSeederPhase_StrInv (env : Env)
    (hnd : (env.prog.classes.map (fun c' => c'.cname)).Nodup)
    (hnat : ∀ c ∈ scope env.prog, ∀ m ∈ c.dmethods ++ c.vmethods,
      m.mnative = false)
    (ph : SeederPhase) (st st' : RCState)
    (h : runSeederPhase env ph st = some st') (hinv : StrInv env.prog st) :
    StrInv env.prog st' := by
  cases ph with
  | keepAnnotated =>
    rw [← Option.some_injective _ h]
    exact StrInv_of_pres env.prog st _
      (fun x => keep_annotated_byString env.prog _ st x) hinv
  | keepClassMembersPhase =>
    rw [← Option.some_injective _ h]
    exact StrInv_of_pres env.prog st _
      (fun x => keep_class_members_byString env.prog _ st x) hinv
  | keepMethodsPhase =>
    rw [← Option.some_injective _ h]
    refine StrInv_step env.prog st _ ?_ ?_ hinv
    · intro cn
      rw [keep_methods_byString, kmQ_cls, Bool.or_false]
    · intro x hx
      rw [keep_methods_byString, hx, Bool.true_or]
  | manifest =>
    exact StrInv_of_pres env.prog st (fun _ => st')
      (fun x => analyze_manifest_byString env.prog _ _ st st' h x) hinv
  | xmlLayouts =>
    exact StrInv_of_pres env.prog st (fun _ => st')
      (fun x => analyze_xml_byString env.prog _ _ st st' h x) hinv
  | nativeLibNames =>
    rw [← Option.some_injective _ h]
    exact StrInv_native_lib env.prog _ st hnd hinv
  | reflection =>
    rw [← Option.some_injective _ h]
    exact StrInv_of_pres env.prog st _
      (fun x => analyze_reflection_byString env.prog st x) hinv
  | reflectedPackages =>
    rw [← Option.some_injective _ h]
    exact StrInv_refl_pkg env.prog _ st hnd hinv
  | serializable =>
    rw [← Option.some_injective _ h]
    exact StrInv_of_pres env.prog st _
      (fun x => analyze_serializable_byString env.prog st x) hinv
  | nativeMethodWalk =>
    rw [← Option.some_injective _ h]
    rw [native_walk_id env.prog hnat st]
    exact hinv
  | jsonSerde =>
    rw [← Option.some_injective _ h]
    exact StrInv_of_pres env.prog st _
      (fun x => json_serde_byString env.prog _ st x) hinv

/-- A phase sequence preserves the invariant. -/
theorem runSeederPhases_StrInv (env : Env)
    (hnd : (env.prog.classes.map (fun c' => c'.cname)).Nodup)
    (hnat : ∀ c ∈ scope env.prog, ∀ m ∈ c.dmethods ++ c.vmethods,
      m.mnative = false)
    (phs : List SeederPhase) :
    ∀ (st st' : RCState), runSeederPhases env phs st = some st' →
      StrInv env.prog st → StrInv env.prog st' := by
  induction phs with
  | nil =>
    intro st st' h hinv
    rw [← Option.some_injective _ h]
    exact hinv
  | cons ph rest ih =>
    intro st st' h hinv
    rw [runSeederPhases] at h
    rcases hph : runSeederPhase env ph st with _ | st1
    · rw [hph] at h
      exact Option.noConfusion h
    · rw [hph] at h
      exact ih st1 st' h
        (runSeederPhase_StrInv env hnd hnat ph st st1 hph hinv)

/-- The C3 counterexample input: class `LK;` declares a native virtual
method `m1` and a static field `f1`; the configuration is empty. -/
def envC3 : Env :=
  { prog :=
      { classes :=
          [{ cname := "LK;",
              sfields := [{ fname := "f1" }],
              vmethods := [{ mname := "m1", mnative := true }] }] } }

/-- The state after the full seeder on the counterexample input. -/
def stC3 : RCState :=
  (init_reachable_classes envC3 initState).getD initState

/-- C3, counterexample: after running the full seeder, the class `LK;` has
`referenced_by_string = true` (the native-method code walk marks the native
method and its declaring class), but its declared static field `f1` does
not — so a class can be string-flagged without all its declared members
being string-flagged. -/
theorem c3_counterexample :
    init_reachable_classes envC3 initState = some stC3 ∧
      (stC3 (.cls "LK;")).byString = true ∧
      (stC3 (.fld "LK;" "f1")).byString = false := by
  exact ⟨rfl, rfl, rfl⟩

/-- C3, amended: if no method in scope carries the native access flag (so
the native-method code walk, which flags a class without flagging its other
members, marks nothing) and class names are distinct, then after running the
full seeder from the fresh state, every class with
`referenced_by_string = true` has `referenced_by_string = true` on every
declared direct method, virtual method, static field and instance field. -/
theorem c3_string_invariant (env : Env) (st' : RCState)
    (hnd : (env.prog.classes.map (fun c' => c'.cname)).Nodup)
    (hnat : ∀ c ∈ scope env.prog, ∀ m ∈ c.dmethods ++ c.vmethods,
      m.mnative = false)
    (h : init_reachable_classes env initState = some st') :
    StrInv env.prog st' := by
  refine runSeederPhases_StrInv env hnd hnat (initPhaseOrder env.cfg)
    initState st' h ?_
  intro c hc hflag
  exact Bool.noConfusion hflag

/-- The C3 witness input: like `envC3` but with the method not native. -/
def envC3w : Env :=
  { prog :=
      { classes :=
          [{ cname := "LK;",
              sfields := [{ fname := "f1" }],
              vmethods := [{ mname := "m1" }] }] } }

/-- The state after the full seeder on the witness input. -/
def stC3w : RCState :=
  (init_reachable_classes envC3w initState).getD initState

/-- Witness for `c3_string_invariant` at a concrete non-native program. -/
theorem c3_string_invariant_witness :
    init_reachable_classes envC3w initState = some stC3w ∧
      StrInv envC3w.prog stC3w := by
  refine ⟨rfl, ?_⟩
  exact c3_string_invariant envC3w stC3w (by decide) (by decide) rfl

end Redex
